import Mathlib

/-!
Verification of the target normalization and artifact handling core of the
newBot repository (acunetix_sync_pt.py, process_nmap_ips_for_pt.py,
acunetix_set_group_scan_speed.py).

Python strings are modelled as `List Char`; Python `str` helpers used by the
code (strip, lower, split, int(), the `in` operator, ...) are modelled by
executable Lean functions below.  ASCII case folding is used for `lower`,
which covers every string the scripts construct.
-/

namespace NewBot

/-- Python strings are modelled as lists of characters. -/
abbrev Str := List Char

/-- The whitespace characters recognised by Python `str.strip` and by the
regex class `\s` (the Unicode whitespace set). -/
def spaceChars : Str :=
  ['\t', '\n', '\x0b', '\x0c', '\r', '\x1c', '\x1d', '\x1e', '\x1f', ' ',
   '\x85', '\xa0', '\u1680', '\u2000', '\u2001', '\u2002', '\u2003', '\u2004',
   '\u2005', '\u2006', '\u2007', '\u2008', '\u2009', '\u200a', '\u2028',
   '\u2029', '\u202f', '\u205f', '\u3000']

/-- Whether a character is Python whitespace. -/
def pyIsSpace (c : Char) : Bool := spaceChars.contains c

/-- The line boundaries recognised by Python `str.splitlines`. -/
def isLineBreak (c : Char) : Bool :=
  c = '\n' || c = '\r' || c = '\x0b' || c = '\x0c' || c = '\x1c' ||
  c = '\x1d' || c = '\x1e' || c = '\x85' || c = '\u2028' || c = '\u2029'

/-- ASCII lowering of one character, as Python `str.lower` does on ASCII. -/
def pyLower (s : Str) : Str := s.map Char.toLower

/-- Drop the characters satisfying `p` from both ends (`str.strip` shape). -/
def stripBy (p : Char → Bool) (s : Str) : Str :=
  ((s.dropWhile p).reverse.dropWhile p).reverse

/-- Python `str.strip()` (no argument: strips whitespace). -/
def pyStrip (s : Str) : Str := stripBy pyIsSpace s

/-- Python `str.strip(".")`. -/
def stripDots (s : Str) : Str := stripBy (fun c => c = '.') s

/-- Python `sub in s` (substring containment). -/
def pySub (sub s : Str) : Bool := s.tails.any (fun t => sub.isPrefixOf t)

/-- Python `s.split(sep)` for a one-character separator. -/
def splitOnChar (sep : Char) : Str → List Str
  | [] => [[]]
  | c :: rest =>
    if c = sep then [] :: splitOnChar sep rest
    else
      match splitOnChar sep rest with
      | [] => [[c]]
      | h :: t => (c :: h) :: t

/-- `s.split(sep, 1)[0]`: the part before the first occurrence of `sep`. -/
def takeUpToChar (sep : Char) (s : Str) : Str := s.takeWhile (fun c => c ≠ sep)

/-- `s.rsplit(sep, 1)[-1]` / `s.rpartition(sep)[2]`: the part after the last
occurrence of `sep` (the whole string when `sep` is absent). -/
def afterLastChar (sep : Char) (s : Str) : Str :=
  (s.reverse.takeWhile (fun c => c ≠ sep)).reverse

/-- `s.partition(sep)[2]`: the part after the first occurrence of `sep`, or
the empty string when `sep` is absent. -/
def afterFirstChar (sep : Char) (s : Str) : Str :=
  if s.contains sep then (s.dropWhile (fun c => c ≠ sep)).drop 1 else []

/-- Python `s.count(c)` for a single character. -/
def countChar (c : Char) (s : Str) : Nat := s.count c

/-- The ASCII digits. -/
def digitChars : Str := ['0', '1', '2', '3', '4', '5', '6', '7', '8', '9']

/-- Whether a character is an ASCII digit. -/
def isAsciiDigit (c : Char) : Bool := digitChars.contains c

/-- Python `s.isdigit()` restricted to ASCII digits (the only digits the
scripts ever produce). -/
def isDigitStr (s : Str) : Bool := s ≠ [] && s.all isAsciiDigit

/-- Numeric value of an ASCII digit string. -/
def toNatDigits (s : Str) : Nat := s.foldl (fun a c => a * 10 + (c.toNat - 48)) 0

/-- Python `int(s)` on a string: strip whitespace, optional sign, then ASCII
digits (underscore grouping is not modelled; the scripts never produce it).
`none` models a raised `ValueError`. -/
def pyIntStr? (s : Str) : Option Int :=
  let t := pyStrip s
  match t with
  | '+' :: ds => if isDigitStr ds then some (toNatDigits ds) else none
  | '-' :: ds => if isDigitStr ds then some (-(toNatDigits ds : Int)) else none
  | ds => if isDigitStr ds then some (toNatDigits ds) else none

/-- Decimal digit character for a value below ten. -/
def digitChar (n : Nat) : Char := Char.ofNat (48 + n)

/-- Auxiliary fuelled accumulator recursion for `natToDigits`; the fuel is
an upper bound on the number of digits, so the result is fuel-independent. -/
def natToDigitsAux : Nat → Nat → Str → Str
  | 0, _, acc => acc
  | fuel + 1, n, acc =>
    if n = 0 then acc
    else natToDigitsAux fuel (n / 10) (digitChar (n % 10) :: acc)

/-- Decimal rendering of a natural number, as Python `str(n)` for `n ≥ 0`. -/
def natToDigits (n : Nat) : Str := if n = 0 then ['0'] else natToDigitsAux n n []

/-- Python `str(i)` for an integer. -/
def intToStr (i : Int) : Str :=
  if i < 0 then '-' :: natToDigits (-i).toNat else natToDigits i.toNat

/-! ## `ipaddress.ip_address` model

`looks_like_ip` in both scripts calls `ipaddress.ip_address` and maps success
to `True`.  The IPv4 grammar (four decimal octets, 0–255, no extra leading
zeros) and the IPv6 grammar (hextets with a single optional `::` compression
and an optional embedded IPv4 tail) are modelled below; IPv6 scope-id
suffixes (`%zone`) are not modelled. -/

/-- One IPv4 dotted-quad octet as accepted by `ipaddress`: 1–3 ASCII digits,
value at most 255, no leading zero except for `0` itself. -/
def validOctet (s : Str) : Bool :=
  isDigitStr s && s.length ≤ 3 && (s.length = 1 || s.head? ≠ some '0') &&
    toNatDigits s ≤ 255

/-- Whether a string parses as an IPv4 address. -/
def isIPv4 (s : Str) : Bool :=
  match splitOnChar '.' s with
  | [a, b, c, d] => validOctet a && validOctet b && validOctet c && validOctet d
  | _ => false

/-- One IPv6 hextet: 1–4 hex digits. -/
def validHextet (s : Str) : Bool :=
  s ≠ [] && s.length ≤ 4 &&
    s.all (fun c => isAsciiDigit c || ('a' ≤ c && c ≤ 'f') || ('A' ≤ c && c ≤ 'F'))

/-- Whether a string parses as an IPv6 address without a scope id. -/
def isIPv6NoScope (s : Str) : Bool :=
  if s.contains '%' then false
  else
    let parts0 := splitOnChar ':' s
    if parts0.length < 3 then false
    else
      -- an embedded IPv4 tail counts as two hextets
      let parts :=
        match parts0.getLast? with
        | some last =>
          if last.contains '.' then
            if isIPv4 last then (parts0.dropLast ++ [['0'], ['0']] : List Str) else []
          else parts0
        | none => parts0
      if parts = [] then false
      else if parts.length > 9 then false
      else
        let n := parts.length
        let interior := (List.range n).filter
          (fun i => 0 < i && i + 1 < n && parts.getD i [' '] = [])
        match interior with
        | [] =>
          n = 8 && parts.all validHextet
        | [i] =>
          let hi := if parts.head? = some [] then
              (if i = 1 then some 0 else none) else some i
          let lo := if parts.getLast? = some [] then
              (if i + 2 = n then some 0 else none) else some (n - i - 1)
          match hi, lo with
          | some h, some l =>
            decide (h + l ≤ 7) && (parts.take h).all validHextet &&
              ((parts.drop (n - l)).all validHextet)
          | _, _ => false
        | _ => false

/-- Whether a string parses as an IPv6 address: an optional `%scope` suffix
(non-empty, no further `%`) after the address part. -/
def isIPv6 (s : Str) : Bool :=
  if s.contains '%' then
    let addr := takeUpToChar '%' s
    let scope := afterFirstChar '%' s
    scope ≠ [] && !(scope.contains '%') && isIPv6NoScope addr
  else isIPv6NoScope s

/-- `looks_like_ip` (both scripts): `ipaddress.ip_address(str(value).strip())`
succeeds. -/
def looks_like_ip (s : Str) : Bool :=
  let t := pyStrip s
  isIPv4 t || isIPv6 t

/-! ## `urllib.parse.urlsplit` model

The scripts only call `urlsplit` on strings whose lowering starts with
`http://` or `https://`, so the model takes the scheme prefix length and
extracts the network location, hostname and port the way
`urllib.parse` does. -/

/-- The netloc: everything after the `//` up to the first `/`, `?` or `#`. -/
def urlNetloc (schemeLen : Nat) (s : Str) : Str :=
  (s.drop schemeLen).takeWhile (fun c => c ≠ '/' && c ≠ '?' && c ≠ '#')

/-- `urlsplit` raises `ValueError: Invalid IPv6 URL` when the netloc has an
unmatched bracket. -/
def urlBracketsOk (netloc : Str) : Bool :=
  netloc.contains '[' = netloc.contains ']'

/-- `SplitResult.hostname`: userinfo before the last `@` is dropped, a
bracketed IPv6 literal keeps only the bracket contents, otherwise the part
before the first `:`; the result is lowercased. -/
def urlHostname (netloc : Str) : Str :=
  let hostinfo := afterLastChar '@' netloc
  let host :=
    if hostinfo.contains '[' then
      ((hostinfo.dropWhile (fun c => c ≠ '[')).drop 1).takeWhile (fun c => c ≠ ']')
    else hostinfo.takeWhile (fun c => c ≠ ':')
  pyLower host

/-- `SplitResult.port`: the digits after the port `:`; empty means no port,
non-digits or a value above 65535 raise `ValueError` (`.error ()`). -/
def urlPort (netloc : Str) : Except Unit (Option Nat) :=
  let hostinfo := afterLastChar '@' netloc
  let portStr :=
    if hostinfo.contains '[' then
      afterFirstChar ':' ((hostinfo.dropWhile (fun c => c ≠ ']')).drop 1)
    else afterFirstChar ':' hostinfo
  if portStr = [] then .ok none
  else if isDigitStr portStr then
    if toNatDigits portStr ≤ 65535 then .ok (some (toNatDigits portStr))
    else .error ()
  else .error ()

/-! ## Shared string constants -/

/-- `"http"`. -/
def httpStr : Str := ['h', 't', 't', 'p']

/-- `"https"`. -/
def httpsStr : Str := httpStr ++ ['s']

/-- `"://"`. -/
def schemeSep : Str := [':', '/', '/']

/-- `"http://"`. -/
def schemeHttpPrefix : Str := httpStr ++ schemeSep

/-- `"https://"`. -/
def schemeHttpsPrefix : Str := httpsStr ++ schemeSep

/-- `"www."`. -/
def wwwDot : Str := ['w', 'w', 'w', '.']

/-! ## acunetix_sync_pt.py -/

/-- A JSON-ish scalar as the scripts may receive it from the API. -/
inductive PyVal where
  | bool (b : Bool)
  | str (s : Str)
  | num (n : Int)
  | noneV
  deriving DecidableEq

/-- The truthy strings of `normalize_bool`: `("1","true","yes","y","on")`. -/
def truthyStrings : List Str :=
  [['1'], ['t', 'r', 'u', 'e'], ['y', 'e', 's'], ['y'], ['o', 'n']]

/-- `normalize_bool` (acunetix_sync_pt.py lines 84–91). -/
def normalize_bool : PyVal → Bool
  | .bool b => b
  | .str s => truthyStrings.contains (pyLower (pyStrip s))
  | .num n => n ≠ 0
  | .noneV => false

/-- Python `int(v)` on a scalar; `none` models a raised exception. -/
def pyIntOfVal : PyVal → Option Int
  | .bool b => some (if b then 1 else 0)
  | .str s => pyIntStr? s
  | .num n => some n
  | .noneV => none

/-- `normalize_product_name` (acunetix_sync_pt.py lines 96–116).
`.error ()` models a `ValueError` escaping from `urlsplit`/`parsed.port`. -/
def normalize_product_name (raw : Str) : Except Unit Str :=
  let name := pyStrip raw
  if name = [] then .ok []
  else
    let lowered := pyLower name
    if schemeHttpPrefix.isPrefixOf lowered || schemeHttpsPrefix.isPrefixOf lowered then
      let scheme := if schemeHttpsPrefix.isPrefixOf lowered then httpsStr else httpStr
      let netloc := urlNetloc (scheme.length + 3) name
      if urlBracketsOk netloc = false then .error ()
      else
        let host := pyLower (pyStrip (urlHostname netloc))
        if host = [] then .ok []
        else
          match urlPort netloc with
          | .error e => .error e
          | .ok (some p) =>
            -- `if parsed.port:` is a truthiness test, so port 0 is dropped
            if p ≠ 0 then .ok (scheme ++ schemeSep ++ host ++ ':' :: natToDigits p)
            else .ok (scheme ++ schemeSep ++ host)
          | .ok none => .ok (scheme ++ schemeSep ++ host)
    else
      let base0 := pyStrip (takeUpToChar '/' name)
      let base := if base0.contains '@' then pyStrip (afterLastChar '@' base0) else base0
      .ok (pyLower base)

/-- `product_name_to_target_url` (acunetix_sync_pt.py lines 119–162). -/
def product_name_to_target_url (name : Str) : Except Unit Str :=
  let value := pyLower (pyStrip name)
  if value = [] then .ok []
  else if schemeHttpPrefix.isPrefixOf value || schemeHttpsPrefix.isPrefixOf value then
    let scheme := if schemeHttpsPrefix.isPrefixOf value then httpsStr else httpStr
    let netloc := urlNetloc (scheme.length + 3) value
    if urlBracketsOk netloc = false then .error ()
    else
      let host := pyLower (pyStrip (urlHostname netloc))
      if host = [] then .ok []
      else
        match urlPort netloc with
        | .error e => .error e
        | .ok (some p) =>
          if p ≠ 0 then .ok (scheme ++ schemeSep ++ host ++ ':' :: natToDigits p)
          else .ok (scheme ++ schemeSep ++ host)
        | .ok none => .ok (scheme ++ schemeSep ++ host)
  else
    let host_for_ip :=
      if value.head? = some '[' && value.contains ']' then
        pyStrip ((value.drop 1).takeWhile (fun c => c ≠ ']'))
      else if countChar ':' value = 1 then
        (if isDigitStr (afterFirstChar ':' value) then takeUpToChar ':' value else value)
      else value
    let has_port0 := value.contains ':' && !(value.contains ' ')
    let has_port :=
      if looks_like_ip host_for_ip && has_port0 &&
          (value.head? = some '[' && value.contains ']' &&
            !(((value.dropWhile (fun c => c ≠ ']')).drop 1).take 1 = [':'])) then
        false
      else has_port0
    if looks_like_ip host_for_ip && has_port then
      let port : Option Nat :=
        if value.head? = some '[' && value.contains ']' then
          let suffix := (value.dropWhile (fun c => c ≠ ']')).drop 1
          if suffix.head? = some ':' && isDigitStr (suffix.drop 1) then
            some (toNatDigits (suffix.drop 1))
          else none
        else if countChar ':' value = 1 then
          (if isDigitStr (afterFirstChar ':' value) then
            some (toNatDigits (afterFirstChar ':' value))
          else none)
        else none
      let scheme := if port = some 8443 || port = some 9443 then httpsStr else httpStr
      .ok (scheme ++ schemeSep ++ value)
    else
      let bare := if wwwDot.isPrefixOf value then value.drop 4 else value
      .ok (httpsStr ++ schemeSep ++ bare)

/-- One product record as consumed by `build_targets_from_products`. -/
structure Product where
  id : PyVal
  name : Option Str
  internet_accessible : PyVal
  deriving DecidableEq

/-- One prepared target: `{"product_id": ..., "url": ..., "product_name": ...}`. -/
structure TargetRow where
  product_id : Int
  url : Str
  product_name : Str
  deriving DecidableEq

/-- The loop of `build_targets_from_products` (acunetix_sync_pt.py lines
175–196) with the `seen` set of already-emitted urls made explicit. -/
def build_targets_go : List Product → List Str → Except Unit (List TargetRow)
  | [], _ => .ok []
  | p :: rest, seen =>
    if normalize_bool p.internet_accessible = false then build_targets_go rest seen
    else
      match pyIntOfVal p.id with
      | none => build_targets_go rest seen
      | some pid =>
        match normalize_product_name (p.name.getD []) with
        | .error e => .error e
        | .ok nm =>
          if nm = [] then build_targets_go rest seen
          else
            match product_name_to_target_url nm with
            | .error e => .error e
            | .ok url =>
              if url = [] then build_targets_go rest seen
              else if url ∈ seen then build_targets_go rest seen
              else (build_targets_go rest (url :: seen)).map (⟨pid, url, nm⟩ :: ·)

/-- `build_targets_from_products` (acunetix_sync_pt.py lines 164–198). -/
def build_targets_from_products (products : List Product) : Except Unit (List TargetRow) :=
  build_targets_go products []

/-- `normalize_target_address` (acunetix_sync_pt.py lines 279–280):
lowercase, strip, drop trailing slashes. -/
def normalize_target_address (v : Str) : Str :=
  let t := pyLower (pyStrip v)
  (t.reverse.dropWhile (fun c => c = '/')).reverse

/-- One entry of the bulk-create response's `targets` list. -/
structure AddedTarget where
  target_id : Option Str
  address : Option Str
  addressValue : Option Str
  target : Option Str
  deriving DecidableEq

/-- The bulk-create result; the `isinstance` guards of the source collapse to
the well-typed `targets` list here. -/
structure AddResult where
  response_targets : List AddedTarget
  deriving DecidableEq

/-- One entry of the full `/targets` listing. -/
structure ListedTarget where
  target_id : Option Str
  address : Option Str
  target : Option Str
  deriving DecidableEq

/-- A Python dict recorded as its insertion sequence; a lookup takes the
last binding for a key, which is exactly assignment overwrite semantics. -/
abbrev PyDict := List (Str × Str)

/-- Dict lookup: the value of the last binding of `k`. -/
def dictGet (d : PyDict) (k : Str) : Option Str :=
  (d.reverse.find? (fun kv => kv.1 = k)).map (fun kv => kv.2)

/-- The `url_to_target[norm] = target_id` assignments performed by the first
loop of `resolve_target_mapping` (response scan, lines 290–302). -/
def response_inserts (add : AddResult) : PyDict :=
  add.response_targets.flatMap (fun t =>
    let tid := pyStrip (t.target_id.getD [])
    if tid = [] then []
    else
      ([t.address, t.addressValue, t.target] : List (Option Str)).flatMap (fun raw =>
        let norm := normalize_target_address (raw.getD [])
        if norm = [] then [] else [(norm, tid)]))

/-- The assignments performed by the second loop of `resolve_target_mapping`
(full listing scan, lines 304–313). -/
def listing_inserts (all_targets : List ListedTarget) : PyDict :=
  all_targets.flatMap (fun t =>
    let tid := pyStrip (t.target_id.getD [])
    if tid = [] then []
    else
      ([t.address, t.target] : List (Option Str)).flatMap (fun raw =>
        let norm := normalize_target_address (raw.getD [])
        if norm = [] then [] else [(norm, tid)]))

/-- `resolve_target_mapping` (acunetix_sync_pt.py lines 283–327).  The
result is the `mapping` dict as its insertion sequence, keyed by
`str(product_id)`. -/
def resolve_target_mapping (submitted : List TargetRow) (add : AddResult)
    (all_targets : List ListedTarget) : PyDict :=
  let url_to_target := response_inserts add ++ listing_inserts all_targets
  submitted.flatMap (fun row =>
    let norm := normalize_target_address row.url
    if norm = [] then []
    else
      match dictGet url_to_target norm with
      | some tid => [(intToStr row.product_id, tid)]
      | none => [])

/-! ## process_nmap_ips_for_pt.py -/

/-- `strip_www` (process_nmap_ips_for_pt.py lines 156–160). -/
def strip_www (host : Str) : Str :=
  let h := pyStrip host
  if wwwDot.isPrefixOf (pyLower h) then h.drop 4 else h

/-- `extract_host_from_product_name` (process_nmap_ips_for_pt.py lines
165–187).  `.error ()` models a `ValueError` escaping from `urlsplit`. -/
def extract_host_from_product_name (value : Str) : Except Unit Str :=
  let raw := pyStrip value
  if raw = [] then .ok []
  else
    let lowered := pyLower raw
    let candidate? : Except Unit Str :=
      if schemeHttpPrefix.isPrefixOf lowered || schemeHttpsPrefix.isPrefixOf lowered then
        let schemeLen := if schemeHttpsPrefix.isPrefixOf lowered then 8 else 7
        let netloc := urlNetloc schemeLen raw
        if urlBracketsOk netloc = false then .error ()
        else .ok (pyStrip (urlHostname netloc))
      else
        let c0 := pyStrip (takeUpToChar '/' raw)
        let c1 := if c0.contains '@' then pyStrip (afterLastChar '@' c0) else c0
        let c2 :=
          if c1.head? = some '[' && c1.contains ']' then
            pyStrip ((c1.drop 1).takeWhile (fun c => c ≠ ']'))
          else if countChar ':' c1 = 1 then
            (if isDigitStr (afterFirstChar ':' c1) then takeUpToChar ':' c1 else c1)
          else c1
        .ok c2
    candidate?.map (fun cand => pyLower (stripDots (pyStrip cand)))

/-- The `state` attribute of a `<state>` element. -/
structure NmapState where
  state : Option Str
  deriving DecidableEq

/-- The `name` and `tunnel` attributes of a `<service>` element. -/
structure NmapService where
  name : Option Str
  tunnel : Option Str
  deriving DecidableEq

/-- One `<port>` element: its `portid` attribute and the first `<state>`
and `<service>` children (`Element.find` semantics). -/
structure NmapPortEl where
  portid : Option Str
  state : Option NmapState
  service : Option NmapService
  deriving DecidableEq

/-- One `<host>` element: the `addr` attribute of each `<address>` child,
and the `<port>` children of the first `<ports>` element, if any. -/
structure NmapHost where
  addresses : List (Option Str)
  ports : Option (List NmapPortEl)
  deriving DecidableEq

/-- A parsed nmap document: its `<host>` elements. -/
structure NmapDoc where
  hosts : List NmapHost
  deriving DecidableEq

/-- The input of `parse_nmap_xml_for_ips`: the file named by `filename`
is absent, present but not parseable as XML, or parsed. -/
inductive XmlSource where
  | missing
  | malformed
  | parsed (doc : NmapDoc)
  deriving DecidableEq

/-- `"open"`. -/
def openStr : Str := ['o', 'p', 'e', 'n']

/-- `"ssl"`. -/
def sslStr : Str := ['s', 's', 'l']

/-- The well-known web-alternate port set of the classifier. -/
def webPorts : List Int := [8000, 8008, 8080, 8443, 8888, 9000, 9443]

/-- The body of the inner `for port_el in ports_el.findall("port")` loop of
`parse_nmap_xml_for_ips` (lines 217–233). -/
def portFindings (ip_addr : Str) (exclude : List Int) (pe : NmapPortEl) :
    List (Str × Int × Str) :=
  match pe.state with
  | none => []
  | some st =>
    if st.state ≠ some openStr then []
    else
      match pyIntStr? (pe.portid.getD ['0']) with
      | none => []
      | some portnum =>
        if portnum ∈ exclude then []
        else
          let svc_name := (pe.service.bind (fun s => s.name)).getD []
          let svc_tunnel := (pe.service.bind (fun s => s.tunnel)).getD []
          if pySub httpStr (pyLower svc_name) || pySub sslStr (pyLower svc_tunnel) ||
              portnum ∈ webPorts then
            let proto :=
              if pySub sslStr (pyLower svc_tunnel) || portnum = 8443 || portnum = 9443 then
                httpsStr
              else httpStr
            [(ip_addr, portnum, proto)]
          else []

/-- The body of the `for host in root.findall("host")` loop (lines 203–233). -/
def hostFindings (exclude : List Int) (h : NmapHost) : List (Str × Int × Str) :=
  match h.addresses.find? (fun a => a.getD [] ≠ []) with
  | none => []
  | some a =>
    let ip_addr := a.getD []
    match h.ports with
    | none => []
    | some portEls => portEls.flatMap (portFindings ip_addr exclude)

/-- `parse_nmap_xml_for_ips` (process_nmap_ips_for_pt.py lines 189–235):
a missing file and an XML parse error both return the empty list. -/
def parse_nmap_xml_for_ips (src : XmlSource) (exclude : List Int) :
    List (Str × Int × Str) :=
  match src with
  | .missing => []
  | .malformed => []
  | .parsed doc => doc.hosts.flatMap (hostFindings exclude)

/-! ### Targets artifact -/

/-- `TARGET_ARTIFACT_BLOCK_START = "PT_TARGET_LIST_START"`. -/
def TARGET_ARTIFACT_BLOCK_START : Str :=
  ['P', 'T', '_', 'T', 'A', 'R', 'G', 'E', 'T', '_', 'L', 'I', 'S', 'T', '_',
   'S', 'T', 'A', 'R', 'T']

/-- `TARGET_ARTIFACT_BLOCK_END = "PT_TARGET_LIST_END"`. -/
def TARGET_ARTIFACT_BLOCK_END : Str :=
  ['P', 'T', '_', 'T', 'A', 'R', 'G', 'E', 'T', '_', 'L', 'I', 'S', 'T', '_',
   'E', 'N', 'D']

/-- Accumulator recursion for Python `str.splitlines`: `\r\n` is one
boundary, every other character of `isLineBreak` is one on its own.
`afterCR` records that the previous character was a `\r` whose line was
already emitted, so a directly following `\n` is part of the same
boundary. -/
def splitlinesAux (acc : Str) (afterCR : Bool) : Str → List Str
  | [] => if acc = [] then [] else [acc.reverse]
  | c :: rest =>
    if afterCR && c = '\n' then splitlinesAux [] false rest
    else if c = '\r' then acc.reverse :: splitlinesAux [] true rest
    else if isLineBreak c then acc.reverse :: splitlinesAux [] false rest
    else splitlinesAux (c :: acc) false rest

/-- Python `str.splitlines()`. -/
def pySplitlines (s : Str) : List Str := splitlinesAux [] false s

/-- The scheme prefix of `TARGET_LINE_RE` (`https?://`): returns the rest of
the string after the scheme, or `none` when the regex cannot match. -/
def dropHttpScheme (s : Str) : Option Str :=
  if schemeHttpsPrefix.isPrefixOf s then some (s.drop 8)
  else if schemeHttpPrefix.isPrefixOf s then some (s.drop 7)
  else none

/-- The regex fragment `(.+)$`: at least one non-newline character, with an
optional final newline (Python `$` matches before a trailing newline). -/
def dotPlusDollar (u : Str) : Bool :=
  let core := if u.getLast? = some '\n' then u.dropLast else u
  core ≠ [] && core.all (fun c => c ≠ '\n')

/-- The regex fragment `\s+(.+)$`: one or more whitespace characters, then
`(.+)$`, with backtracking over the split point. -/
def wsThenDotTail : Str → Bool
  | [] => false
  | c :: rest => pyIsSpace c && (dotPlusDollar rest || wsThenDotTail rest)

/-- `TARGET_LINE_RE.match(line)` for
`TARGET_LINE_RE = ^(https?://[^,\s]+),\s+(.+)$`: the character class
`[^,\s]+` is maximal-munch here because no shorter run can be followed by
the literal comma. -/
def matchTargetLine (s : Str) : Bool :=
  match dropHttpScheme s with
  | none => false
  | some r =>
    let run := r.takeWhile (fun c => c ≠ ',' && !pyIsSpace c)
    run ≠ [] &&
      (match r.drop run.length with
       | ',' :: tail => wsThenDotTail tail
       | _ => false)

/-- `render_targets_artifact` (lines 238–240):
`f"{START}\n{body}\n{END}\n"` with `body = "\n".join(target_lines)`. -/
def render_targets_artifact (target_lines : List Str) : Str :=
  TARGET_ARTIFACT_BLOCK_START ++ '\n' ::
    (List.intercalate ['\n'] target_lines ++ '\n' ::
      (TARGET_ARTIFACT_BLOCK_END ++ ['\n']))

/-- The two `ValueError`s `parse_targets_artifact` can raise. -/
inductive ArtifactError where
  | markersMalformed
  | invalidLine (line : Str)
  deriving DecidableEq

/-- Whether the end-marker part `\n{END}\s*$` of the artifact regex matches
at this position of the remaining text. -/
def acceptEnd (rest : Str) : Bool :=
  ('\n' :: TARGET_ARTIFACT_BLOCK_END).isPrefixOf rest &&
    (rest.drop (TARGET_ARTIFACT_BLOCK_END.length + 1)).all pyIsSpace

/-- The non-greedy group `(.*?)` of the artifact regex: the shortest prefix
of the remaining text whose continuation matches `\n{END}\s*$`. -/
def findBody : Str → Option Str
  | [] => none
  | c :: rest =>
    if acceptEnd (c :: rest) then some []
    else (findBody rest).map (fun b => c :: b)

/-- The `for line in lines` validation loop of `parse_targets_artifact`:
the first line that fails `TARGET_LINE_RE`, if any. -/
def checkLinesLoop : List Str → Option Str
  | [] => none
  | l :: rest => if matchTargetLine l then checkLinesLoop rest else some l

/-- `parse_targets_artifact` (process_nmap_ips_for_pt.py lines 243–258). -/
def parse_targets_artifact (content : Str) : Except ArtifactError (List Str) :=
  let rest0 := content.dropWhile pyIsSpace
  if (TARGET_ARTIFACT_BLOCK_START ++ ['\n']).isPrefixOf rest0 then
    match findBody (rest0.drop (TARGET_ARTIFACT_BLOCK_START.length + 1)) with
    | some body =>
      let lines := ((pySplitlines body).map pyStrip).filter (fun l => l ≠ [])
      match checkLinesLoop lines with
      | some bad => .error (.invalidLine bad)
      | none => .ok lines
    | none => .error .markersMalformed
  else .error .markersMalformed

/-- `write_targets_artifact` (process_nmap_ips_for_pt.py lines 261–268):
`.ok (pt_id, content)` models the file `pt_targets_<pt_id>.txt` being
written with `content`; `.error` models the `ValueError` raised by the
strict self-check before any write happens. -/
def write_targets_artifact (pt_id : Nat) (lines : List Str) :
    Except ArtifactError (Nat × Str) :=
  let content := render_targets_artifact lines
  match parse_targets_artifact content with
  | .error e => .error e
  | .ok _ => .ok (pt_id, content)

/-! ### Building the target-line list (lines 361–384) -/

/-- Lexicographic string comparison by code point, as Python `<` on `str`. -/
def lexLt : Str → Str → Bool
  | _, [] => false
  | [], _ :: _ => true
  | a :: s, b :: t => if a < b then true else if b < a then false else lexLt s t

/-- The non-strict order used to model Python `sorted`. -/
def lexLe (a b : Str) : Prop := lexLt a b = true ∨ a = b

instance : DecidableRel lexLe := fun a b =>
  inferInstanceAs (Decidable (lexLt a b = true ∨ a = b))

/-- `sorted(<python set>)`: the distinct elements in ascending order. -/
def pySortedSet (l : List Str) : List Str := List.insertionSort lexLe l.dedup

/-- The `if line and line not in seen` dedup loop (lines 379–384), with the
`seen` set explicit. -/
def dedupeKeepFirst (seen : List Str) : List Str → List Str
  | [] => []
  | l :: rest =>
    if l ≠ [] ∧ l ∉ seen then l :: dedupeKeepFirst (l :: seen) rest
    else dedupeKeepFirst seen rest

/-- `f"https://{host}, {label}"`. -/
def domainLine (host label : Str) : Str :=
  httpsStr ++ schemeSep ++ host ++ ',' :: ' ' :: label

/-- The line-building part of `process_single_product_type` (lines 361–384):
primary product-type host first (when it is a non-empty non-IP host), the
known-accessible domain hosts sorted, the IP lines sorted, then the dedup
pass.  `domain_hosts` and `ip_lines_set` are the respective Python sets,
given by their elements. -/
def build_target_lines (pt_name : Str) (domain_hosts : List Str)
    (ip_lines_set : List Str) : Except Unit (List Str) :=
  match extract_host_from_product_name pt_name with
  | .error e => .error e
  | .ok pt_host =>
    let primary :=
      if pt_host ≠ [] && !looks_like_ip pt_host then
        [domainLine (strip_www pt_host) pt_name]
      else []
    let domLines := (pySortedSet domain_hosts).map (fun h => domainLine h pt_name)
    let ipLines := pySortedSet ip_lines_set
    .ok (dedupeKeepFirst [] (primary ++ domLines ++ ipLines))

/-! ## acunetix_set_group_scan_speed.py -/

/-- The remote behaviour one run of the per-target loop observes:
`getCfg tid` is the configuration fetch (`.error msg` a raised exception,
`.ok current` the `scan_speed` field of the returned configuration) and
`patch tid` the PATCH call (`.error msg` a raised exception, `.ok code`
the HTTP status). -/
structure SpeedEnv where
  getCfg : Str → Except Str (Option Str)
  patch : Str → Except Str Int

/-- One entry of the `errors` list of the loop. -/
inductive SpeedErr where
  | exc (target_id : Str) (msg : Str)
  | badStatus (target_id : Str) (code : Int)
  deriving DecidableEq

/-- The `for tid in target_ids` loop of `main`
(acunetix_set_group_scan_speed.py lines 246–268), returning
`(changed, skipped, errors)`. -/
def runSpeedLoop (env : SpeedEnv) (dryRun : Bool) (want : Str) :
    List Str → List Str × List Str × List SpeedErr
  | [] => ([], [], [])
  | tid :: rest =>
    let r := runSpeedLoop env dryRun want rest
    match env.getCfg tid with
    | .error m => (r.1, r.2.1, .exc tid m :: r.2.2)
    | .ok current =>
      if current = some want then (r.1, tid :: r.2.1, r.2.2)
      else if dryRun then (tid :: r.1, r.2.1, r.2.2)
      else
        match env.patch tid with
        | .error m => (r.1, r.2.1, .exc tid m :: r.2.2)
        | .ok st =>
          if st ≠ 200 ∧ st ≠ 204 then (r.1, r.2.1, .badStatus tid st :: r.2.2)
          else (tid :: r.1, r.2.1, r.2.2)

/-- The `"ok": len(errors) == 0` field of the result object (line 271). -/
def speedRunOk (env : SpeedEnv) (dryRun : Bool) (want : Str) (tids : List Str) : Bool :=
  ((runSpeedLoop env dryRun want tids).2.2).isEmpty

/-! ## Spec-side definitions (for refinement comparison only)

These follow the words of the specification, not the source, and exist to
be compared with the source-derived definitions above. -/

/-- A host character for the spec's target-line shape
`<scheme>://<host_or_ip>[:<port>], <label>`. -/
def isClaimHostChar (c : Char) : Bool := c.isAlphanum || c = '.' || c = '-'

/-- Modelled from the spec's words: the target-line shape
`"<scheme>://<host_or_ip>[:<port>], <label>"` with scheme `http` or `https`,
a host of name characters (or an IP, which uses the same characters), an
optional decimal port and a non-empty single-line label. -/
def claimedLineShape (s : Str) : Bool :=
  match dropHttpScheme s with
  | none => false
  | some r =>
    let host := r.takeWhile isClaimHostChar
    host ≠ [] &&
      (let r1 := r.drop host.length
       let r2 : Option Str :=
         match r1 with
         | ':' :: rest =>
           let ds := rest.takeWhile isAsciiDigit
           if ds ≠ [] then some (rest.drop ds.length) else none
         | _ => some r1
       match r2 with
       | some (',' :: ' ' :: label) => label ≠ [] && label.all (fun c => c ≠ '\n')
       | _ => false)

/-! ## C8: the extractor never propagates missing-file or parse errors -/

/-- C8: for every input document, `parse_nmap_xml_for_ips` is a total
function; a missing file and a document that is not well-formed XML both
yield the empty sequence instead of an error, for every excluded-port set. -/
theorem C8_extractor_total_on_failures :
    ∀ exclude : List Int,
      parse_nmap_xml_for_ips XmlSource.missing exclude = [] ∧
      parse_nmap_xml_for_ips XmlSource.malformed exclude = [] := by
  intro exclude
  exact ⟨rfl, rfl⟩

/-! ## C5: web-like classification of open ports -/

/-- `"10.0.0.5"`, the example host of the claim's concrete scenarios. -/
def exIp : Str := ['1', '0', '.', '0', '.', '0', '.', '5']

/-- A one-host one-port document with the given port attributes. -/
def onePortDoc (addr portid : Str) (stAttr : Option Str)
    (svc : Option NmapService) : NmapDoc :=
  ⟨[⟨[some addr], some [⟨some portid, some ⟨stAttr⟩, svc⟩]⟩]⟩

/-- C5: for a host with an address and one open port that parses to `n` and
is not excluded, a finding is emitted iff the service name contains "http"
(case-insensitively), or the tunnel contains "ssl", or the port is one of
{8000, 8008, 8080, 8443, 8888, 9000, 9443}; its protocol is "https" iff the
tunnel contains "ssl" or the port is 8443 or 9443, else "http".  In
particular an open port 443 with excluded ports {80, 443} yields nothing,
and an open port 8443 with tunnel "ssl" yields one "https" finding. -/
theorem C5_weblike_classification (addr portid : Str) (svcName svcTunnel : Option Str)
    (exclude : List Int) (n : Int)
    (haddr : addr ≠ []) (hport : pyIntStr? portid = some n) (hexc : n ∉ exclude) :
    (parse_nmap_xml_for_ips
        (.parsed (onePortDoc addr portid (some openStr) (some ⟨svcName, svcTunnel⟩)))
        exclude =
      (if pySub httpStr (pyLower (svcName.getD [])) ||
          pySub sslStr (pyLower (svcTunnel.getD [])) || n ∈ webPorts then
        [(addr, n,
          if pySub sslStr (pyLower (svcTunnel.getD [])) || n = 8443 || n = 9443 then
            httpsStr
          else httpStr)]
      else [])) ∧
    parse_nmap_xml_for_ips
        (.parsed (onePortDoc exIp ['4', '4', '3'] (some openStr)
          (some ⟨some httpsStr, none⟩))) [80, 443] = [] ∧
    parse_nmap_xml_for_ips
        (.parsed (onePortDoc exIp ['8', '4', '4', '3'] (some openStr)
          (some ⟨some ['x'], some sslStr⟩))) [80, 443] =
      [(exIp, 8443, httpsStr)] := by
  refine ⟨?_, by decide, by decide⟩
  simp only [parse_nmap_xml_for_ips, onePortDoc, List.flatMap_cons, List.flatMap_nil,
    hostFindings, List.find?]
  rw [show (decide ((some addr).getD [] ≠ [])) = true by simpa using haddr]
  simp only [portFindings, Option.getD_some, hport, Option.some_bind]
  have hopen : (some openStr ≠ some openStr) = False := by simp
  simp only [hopen, if_false, reduceIte, hexc, List.append_nil]

/-- Witness for C5 at a concrete input. -/
theorem C5_weblike_classification_witness :
    parse_nmap_xml_for_ips
        (.parsed (onePortDoc exIp ['8', '0', '8', '0'] (some openStr)
          (some ⟨some ['s', 's', 'h'], none⟩))) [80, 443] =
      [(exIp, 8080, httpStr)] := by
  have h := C5_weblike_classification exIp ['8', '0', '8', '0']
    (some ['s', 's', 'h']) none [80, 443] 8080 (by decide) (by decide) (by decide)
  rw [h.1]
  decide

/-! ## C9: per-target failures are aggregated, not propagated -/

/-- C9: the per-target configuration-update loop is compositional over the
target list (so one target's failure cannot stop the processing of later
targets), every target lands in exactly one of changed/skipped/errors, the
run's `ok` flag is true iff the error list is empty, and a single target
produces no error entry iff its configuration fetch succeeds and it is then
skipped, dry-run-changed, or patched with status 200/204. -/
theorem C9_partial_failure (env : SpeedEnv) (dryRun : Bool) (want : Str) :
    (∀ t1 t2 : List Str,
      runSpeedLoop env dryRun want (t1 ++ t2) =
        ((runSpeedLoop env dryRun want t1).1 ++ (runSpeedLoop env dryRun want t2).1,
         (runSpeedLoop env dryRun want t1).2.1 ++ (runSpeedLoop env dryRun want t2).2.1,
         (runSpeedLoop env dryRun want t1).2.2 ++ (runSpeedLoop env dryRun want t2).2.2)) ∧
    (∀ tids : List Str,
      (runSpeedLoop env dryRun want tids).1.length
        + (runSpeedLoop env dryRun want tids).2.1.length
        + (runSpeedLoop env dryRun want tids).2.2.length = tids.length) ∧
    (∀ tids : List Str,
      speedRunOk env dryRun want tids = true ↔
        (runSpeedLoop env dryRun want tids).2.2 = []) ∧
    (∀ tid : Str,
      (runSpeedLoop env dryRun want [tid]).2.2 = [] ↔
        ∃ cur, env.getCfg tid = .ok cur ∧
          (cur = some want ∨ dryRun = true ∨
            ∃ st, env.patch tid = .ok st ∧ (st = 200 ∨ st = 204))) := by
  have step : ∀ tid rest, runSpeedLoop env dryRun want (tid :: rest) =
      (let r := runSpeedLoop env dryRun want rest
       match env.getCfg tid with
       | .error m => (r.1, r.2.1, .exc tid m :: r.2.2)
       | .ok current =>
         if current = some want then (r.1, tid :: r.2.1, r.2.2)
         else if dryRun then (tid :: r.1, r.2.1, r.2.2)
         else
           match env.patch tid with
           | .error m => (r.1, r.2.1, .exc tid m :: r.2.2)
           | .ok st =>
             if st ≠ 200 ∧ st ≠ 204 then (r.1, r.2.1, .badStatus tid st :: r.2.2)
             else (tid :: r.1, r.2.1, r.2.2)) := fun _ _ => rfl
  have happ : ∀ t1 t2 : List Str,
      runSpeedLoop env dryRun want (t1 ++ t2) =
        ((runSpeedLoop env dryRun want t1).1 ++ (runSpeedLoop env dryRun want t2).1,
         (runSpeedLoop env dryRun want t1).2.1 ++ (runSpeedLoop env dryRun want t2).2.1,
         (runSpeedLoop env dryRun want t1).2.2 ++ (runSpeedLoop env dryRun want t2).2.2) := by
    intro t1 t2
    induction t1 with
    | nil => simp [runSpeedLoop]
    | cons tid rest ih =>
      rw [List.cons_append, step, step tid rest]
      simp only [ih]
      cases hc : env.getCfg tid with
      | error m => simp
      | ok cur =>
        by_cases h1 : cur = some want
        · simp [h1]
        · by_cases h2 : dryRun
          · simp [h1, h2]
          · cases hp : env.patch tid with
            | error m => simp [h1, h2, hp]
            | ok st =>
              by_cases h3 : st ≠ 200 ∧ st ≠ 204 <;> simp [h1, h2, hp, h3]
  have hone : ∀ tid : Str,
      (runSpeedLoop env dryRun want [tid]).1.length
        + (runSpeedLoop env dryRun want [tid]).2.1.length
        + (runSpeedLoop env dryRun want [tid]).2.2.length = 1 := by
    intro tid
    rw [step]
    cases hc : env.getCfg tid with
    | error m => simp [runSpeedLoop]
    | ok cur =>
      by_cases h1 : cur = some want
      · simp [runSpeedLoop, h1]
      · by_cases h2 : dryRun
        · simp [runSpeedLoop, h1, h2]
        · cases hp : env.patch tid with
          | error m => simp [runSpeedLoop, h1, h2, hp]
          | ok st =>
            by_cases h3 : st ≠ 200 ∧ st ≠ 204 <;> simp [runSpeedLoop, h1, h2, hp, h3]
  refine ⟨happ, ?_, ?_, ?_⟩
  · intro tids
    induction tids with
    | nil => rfl
    | cons tid rest ih =>
      rw [show tid :: rest = [tid] ++ rest from rfl, happ [tid] rest]
      simp only [List.length_append, List.length_cons, List.length_nil]
      have h1 := hone tid
      omega
  · intro tids
    simp [speedRunOk, List.isEmpty_iff]
  · intro tid
    rw [step]
    cases hc : env.getCfg tid with
    | error m => simp [runSpeedLoop, hc]
    | ok cur =>
      by_cases h1 : cur = some want
      · simp [runSpeedLoop, hc, h1]
      · by_cases h2 : dryRun
        · simp [runSpeedLoop, hc, h1, h2]
        · cases hp : env.patch tid with
          | error m => simp [runSpeedLoop, hc, h1, h2, hp]
          | ok st =>
            by_cases h3 : st ≠ 200 ∧ st ≠ 204 <;>
              simp [runSpeedLoop, hc, h1, h2, hp, h3] <;> omega

/-! ## Character-class toolkit -/

/-- Benign characters (digits, dot, colon): not whitespace, fixed by
lowercasing, distinct from the structural characters the parsers test. -/
theorem benignA_facts (c : Char) (h : isAsciiDigit c = true ∨ c = '.') :
    pyIsSpace c = false ∧ Char.toLower c = c ∧ c ≠ ':' ∧ c ≠ '[' ∧ c ≠ ' ' ∧
      c ≠ 'h' := by
  rcases h with h | h
  · have hm : c ∈ (['0', '1', '2', '3', '4', '5', '6', '7', '8', '9'] : List Char) := by
      unfold isAsciiDigit digitChars at h
      exact List.mem_of_elem_eq_true h
    fin_cases hm <;> exact ⟨by decide, by decide, by decide, by decide, by decide, by decide⟩
  · subst h
    exact ⟨by decide, by decide, by decide, by decide, by decide, by decide⟩

theorem splitOnChar_ne_nil (sep : Char) (s : Str) : splitOnChar sep s ≠ [] := by
  induction s with
  | nil => simp [splitOnChar]
  | cons c rest ih =>
    simp only [splitOnChar]
    split
    · simp
    · split
      · simp
      · simp

/-- Characters of a string all satisfy `p` or are the separator, when every
part of its split does. -/
theorem splitOnChar_mem (sep : Char) (p : Char → Bool) :
    ∀ s : Str, (∀ part ∈ splitOnChar sep s, ∀ c ∈ part, p c = true) →
      ∀ c ∈ s, p c = true ∨ c = sep := by
  intro s
  induction s with
  | nil => intro _ c hc; cases hc
  | cons a rest ih =>
    intro h c hc
    by_cases ha : a = sep
    · have hsplit : splitOnChar sep (a :: rest) = [] :: splitOnChar sep rest := by
        simp only [splitOnChar, if_pos ha]
      have hrest : ∀ part ∈ splitOnChar sep rest, ∀ c ∈ part, p c = true := by
        intro part hpart d hd
        exact h part (hsplit ▸ List.mem_cons_of_mem _ hpart) d hd
      rcases List.mem_cons.1 hc with rfl | hc'
      · right; exact ha
      · exact ih hrest c hc'
    · cases hsp : splitOnChar sep rest with
      | nil => exact absurd hsp (splitOnChar_ne_nil sep rest)
      | cons p0 pt =>
        have hsplit : splitOnChar sep (a :: rest) = (a :: p0) :: pt := by
          simp only [splitOnChar, if_neg ha, hsp]
        have hhead : ∀ d ∈ a :: p0, p d = true :=
          h (a :: p0) (hsplit ▸ List.mem_cons_self _ _)
        rcases List.mem_cons.1 hc with rfl | hc'
        · exact Or.inl (hhead c (List.mem_cons_self _ _))
        · refine ih ?_ c hc'
          intro part hpart d hd
          rw [hsp] at hpart
          rcases List.mem_cons.1 hpart with rfl | hp'
          · exact hhead d (List.mem_cons_of_mem _ hd)
          · exact h part (hsplit ▸ List.mem_cons_of_mem _ hp') d hd

/-- Every character of an IPv4 address string is a digit or a dot. -/
theorem isIPv4_chars (s : Str) (h : isIPv4 s = true) :
    ∀ c ∈ s, isAsciiDigit c = true ∨ c = '.' := by
  refine splitOnChar_mem '.' _ s ?_
  intro part hpart c hc
  unfold isIPv4 at h
  split at h
  · rename_i a b c' d heq
    rw [heq] at hpart
    simp only [List.mem_cons, List.not_mem_nil, or_false] at hpart
    simp only [Bool.and_eq_true] at h
    have hoct : validOctet part = true := by
      rcases hpart with rfl | rfl | rfl | rfl
      · exact h.1.1.1
      · exact h.1.1.2
      · exact h.1.2
      · exact h.2
    have hd : isDigitStr part = true := by
      unfold validOctet at hoct
      simp only [Bool.and_eq_true] at hoct
      exact hoct.1.1.1
    unfold isDigitStr at hd
    simp only [Bool.and_eq_true] at hd
    exact List.all_eq_true.1 hd.2 c hc
  · exact absurd h (by simp)

theorem isIPv4_ne_nil (s : Str) (h : isIPv4 s = true) : s ≠ [] := by
  intro hs
  subst hs
  exact absurd h (by decide)

theorem dropWhile_eq_self_of_all (p : Char → Bool) (s : Str)
    (h : ∀ c ∈ s, p c = false) : s.dropWhile p = s := by
  cases s with
  | nil => rfl
  | cons a t => simp [List.dropWhile_cons, h a (List.mem_cons_self a t)]

theorem stripBy_eq_self (p : Char → Bool) (s : Str)
    (h : ∀ c ∈ s, p c = false) : stripBy p s = s := by
  unfold stripBy
  rw [dropWhile_eq_self_of_all p s h,
    dropWhile_eq_self_of_all p s.reverse (fun c hc => h c (List.mem_reverse.1 hc)),
    List.reverse_reverse]

theorem pyLower_eq_self (s : Str) (h : ∀ c ∈ s, Char.toLower c = c) :
    pyLower s = s := by
  unfold pyLower
  induction s with
  | nil => rfl
  | cons a t ih =>
    simp only [List.map_cons, h a (List.mem_cons_self a t)]
    rw [ih (fun c hc => h c (List.mem_cons_of_mem _ hc))]

theorem takeWhile_append_sep (sep : Char) (s t : Str) (h : ∀ c ∈ s, c ≠ sep) :
    (s ++ sep :: t).takeWhile (fun c => c ≠ sep) = s ∧
      (s ++ sep :: t).dropWhile (fun c => c ≠ sep) = sep :: t := by
  induction s with
  | nil => constructor <;> simp
  | cons a s' ih =>
    have ha : a ≠ sep := h a (List.mem_cons_self a s')
    obtain ⟨h1, h2⟩ := ih (fun c hc => h c (List.mem_cons_of_mem _ hc))
    constructor
    · rw [List.cons_append, List.takeWhile_cons, if_pos (by simpa using ha), h1]
    · rw [List.cons_append, List.dropWhile_cons, if_pos (by simpa using ha), h2]

theorem isPrefixOf_cons_false (a b : Char) (s t : Str) (h : b ≠ a) :
    (a :: s).isPrefixOf (b :: t) = false := by
  simp [List.isPrefixOf, bne_iff_ne, Ne.symm h]

/-! ## C4: scheme inference for IP:port product names -/

/-- C4: for every valid IPv4 `ip` and digit string `p`, the scheme-less
input `ip:p` becomes `https://ip:p` exactly when the numeric value of `p`
is 8443 or 9443, and `http://ip:p` otherwise; the port is kept verbatim. -/
theorem C4_scheme_inference (ip p : Str)
    (hip : isIPv4 ip = true) (hp : isDigitStr p = true) :
    product_name_to_target_url (ip ++ ':' :: p) =
      .ok ((if toNatDigits p = 8443 ∨ toNatDigits p = 9443 then httpsStr else httpStr)
        ++ schemeSep ++ ip ++ ':' :: p) := by
  have hipne : ip ≠ [] := isIPv4_ne_nil ip hip
  have hchars : ∀ c ∈ ip, isAsciiDigit c = true ∨ c = '.' := isIPv4_chars ip hip
  have hpall : ∀ c ∈ p, isAsciiDigit c = true := by
    intro c hc
    unfold isDigitStr at hp
    simp only [Bool.and_eq_true] at hp
    exact List.all_eq_true.1 hp.2 c hc
  have hvfacts : ∀ c ∈ ip ++ ':' :: p,
      pyIsSpace c = false ∧ Char.toLower c = c := by
    intro c hc
    rcases List.mem_append.1 hc with hc | hc
    · obtain ⟨h1, h2, _⟩ := benignA_facts c (hchars c hc)
      exact ⟨h1, h2⟩
    · rcases List.mem_cons.1 hc with rfl | hc
      · exact ⟨by decide, by decide⟩
      · obtain ⟨h1, h2, _⟩ := benignA_facts c (Or.inl (hpall c hc))
        exact ⟨h1, h2⟩
  have hstrip : pyStrip (ip ++ ':' :: p) = ip ++ ':' :: p :=
    stripBy_eq_self _ _ (fun c hc => (hvfacts c hc).1)
  have hlower : pyLower (ip ++ ':' :: p) = ip ++ ':' :: p :=
    pyLower_eq_self _ (fun c hc => (hvfacts c hc).2)
  have hipstrip : pyStrip ip = ip :=
    stripBy_eq_self _ _ (fun c hc => (hvfacts c (List.mem_append_left _ hc)).1)
  have hlooks : looks_like_ip ip = true := by
    simp only [looks_like_ip, hipstrip, hip, Bool.true_or]
  obtain ⟨i0, itl, hi0⟩ : ∃ i0 itl, ip = i0 :: itl := by
    cases ip with
    | nil => exact absurd rfl hipne
    | cons a t => exact ⟨a, t, rfl⟩
  have hi0facts := benignA_facts i0 (hchars i0 (by rw [hi0]; exact List.mem_cons_self _ _))
  have hcons : ip ++ ':' :: p = i0 :: (itl ++ ':' :: p) := by rw [hi0]; rfl
  have hnp1 : schemeHttpPrefix.isPrefixOf (ip ++ ':' :: p) = false := by
    rw [hcons]
    exact isPrefixOf_cons_false 'h' i0 _ _ hi0facts.2.2.2.2.2
  have hnp2 : schemeHttpsPrefix.isPrefixOf (ip ++ ':' :: p) = false := by
    rw [hcons]
    exact isPrefixOf_cons_false 'h' i0 _ _ hi0facts.2.2.2.2.2
  have hipne2 : (ip ++ ':' :: p) ≠ [] := by rw [hcons]; exact List.cons_ne_nil _ _
  have hhead : (ip ++ ':' :: p).head? = some i0 := by rw [hcons]; rfl
  have hheadne : ((ip ++ ':' :: p).head? = some '[') = False := by
    rw [hhead]
    simp only [Option.some.injEq, eq_iff_iff, iff_false]
    exact Ne.symm (by simpa using hi0facts.2.2.2.1) |>.symm
  have hipnocolon : ∀ c ∈ ip, c ≠ ':' := fun c hc => (benignA_facts c (hchars c hc)).2.2.1
  have hcount : countChar ':' (ip ++ ':' :: p) = 1 := by
    unfold countChar
    rw [List.count_append, List.count_cons_self]
    have h1 : List.count ':' ip = 0 := List.count_eq_zero.2 (fun hmem => hipnocolon ':' hmem rfl)
    have h2 : List.count ':' p = 0 := by
      refine List.count_eq_zero.2 (fun hmem => ?_)
      exact (benignA_facts ':' (Or.inl (hpall ':' hmem))).2.2.1 rfl
    omega
  have hcontc : (ip ++ ':' :: p).contains ':' = true :=
    List.elem_eq_true_of_mem (List.mem_append_right _ (List.mem_cons_self _ _))
  have hconts : (ip ++ ':' :: p).contains ' ' = false := by
    cases hb : (ip ++ ':' :: p).contains ' ' with
    | false => rfl
    | true =>
      exfalso
      have hmem := List.mem_of_elem_eq_true hb
      rcases List.mem_append.1 hmem with hm | hm
      · exact (benignA_facts ' ' (hchars ' ' hm)).2.2.2.2.1 rfl
      · rcases List.mem_cons.1 hm with he | hm
        · exact absurd he (by decide)
        · exact (benignA_facts ' ' (Or.inl (hpall ' ' hm))).2.2.2.2.1 rfl
  obtain ⟨htake, hdrop⟩ := takeWhile_append_sep ':' ip p hipnocolon
  have hafter : afterFirstChar ':' (ip ++ ':' :: p) = p := by
    unfold afterFirstChar
    rw [if_pos hcontc, hdrop]
    rfl
  have htakeup : takeUpToChar ':' (ip ++ ':' :: p) = ip := by
    unfold takeUpToChar
    exact htake
  have hbrf : (decide ((ip ++ ':' :: p).head? = some '[') &&
      List.contains (ip ++ ':' :: p) ']') = false := by
    rw [hhead]
    have hd : decide ((some i0 : Option Char) = some '[') = false := by
      simp [hi0facts.2.2.2.1]
    rw [hd, Bool.false_and]
  unfold product_name_to_target_url
  rw [hstrip, hlower]
  rw [if_neg (by rw [hcons]; exact List.cons_ne_nil _ _)]
  rw [if_neg (by rw [hnp1, hnp2]; simp)]
  simp only [hbrf, Bool.false_eq_true, if_false, hcount, hafter, hp, htakeup,
    hlooks, hcontc, hconts, Bool.not_false, Bool.and_self, Bool.true_and,
    Bool.and_true, Bool.and_false, Bool.false_and, if_true, reduceIte]
  by_cases h84 : toNatDigits p = 8443
  · simp [h84]
  · by_cases h94 : toNatDigits p = 9443
    · simp [h84, h94]
    · simp [h84, h94]

/-- Witness for C4 at `10.0.0.5:8443` and `10.0.0.5:8080`. -/
theorem C4_scheme_inference_witness :
    product_name_to_target_url (exIp ++ ':' :: ['8', '4', '4', '3']) =
      .ok (httpsStr ++ schemeSep ++ exIp ++ ':' :: ['8', '4', '4', '3']) := by
  have h := C4_scheme_inference exIp ['8', '4', '4', '3'] (by decide) (by decide)
  rw [h, if_pos (Or.inl (show toNatDigits ['8', '4', '4', '3'] = 8443 by decide))]

/-! ## C10: build_targets_from_products deduplicates by url, first wins -/

/-- The per-product decision of the `build_targets_from_products` loop
(before the `seen` dedup): `.ok none` is a skipped product, `.ok (some row)`
a candidate entry, `.error` a raised error. -/
def qualifies (p : Product) : Except Unit (Option TargetRow) :=
  if normalize_bool p.internet_accessible = false then .ok none
  else
    match pyIntOfVal p.id with
    | none => .ok none
    | some pid =>
      match normalize_product_name (p.name.getD []) with
      | .error e => .error e
      | .ok nm =>
        if nm = [] then .ok none
        else
          match product_name_to_target_url nm with
          | .error e => .error e
          | .ok url =>
            if url = [] then .ok none
            else .ok (some ⟨pid, url, nm⟩)

/-- One step of the loop, factored through `qualifies`. -/
theorem build_targets_go_cons (p : Product) (rest : List Product) (seen : List Str) :
    build_targets_go (p :: rest) seen =
      match qualifies p with
      | .error e => .error e
      | .ok none => build_targets_go rest seen
      | .ok (some r) =>
        if r.url ∈ seen then build_targets_go rest seen
        else (build_targets_go rest (r.url :: seen)).map (fun ts => r :: ts) := by
  simp only [build_targets_go, qualifies]
  by_cases h1 : normalize_bool p.internet_accessible = false
  · simp [h1]
  · simp only [h1, if_false, reduceIte]
    cases h2 : pyIntOfVal p.id with
    | none => rfl
    | some pid =>
      cases h3 : normalize_product_name (p.name.getD []) with
      | error e => rfl
      | ok nm =>
        by_cases h4 : nm = []
        · simp [h4]
        · simp only [h4, if_false, reduceIte]
          cases h5 : product_name_to_target_url nm with
          | error e => rfl
          | ok url =>
            by_cases h6 : url = []
            · simp [h6]
            · simp only [h6, if_false, reduceIte]
              rfl

/-- Loop invariant: on success, no emitted url is in `seen`, the urls are
pairwise distinct, and a url is emitted iff it is not in `seen` and some
product qualifies with it. -/
theorem build_targets_go_inv :
    ∀ (products : List Product) (seen : List Str) (ts : List TargetRow),
      build_targets_go products seen = .ok ts →
      (∀ r ∈ ts, r.url ∉ seen) ∧
      (ts.map (fun r => r.url)).Nodup ∧
      (∀ u, (∃ r ∈ ts, r.url = u) ↔
        (u ∉ seen ∧ ∃ p ∈ products, ∃ r', qualifies p = .ok (some r') ∧ r'.url = u)) := by
  intro products
  induction products with
  | nil =>
    intro seen ts h
    simp only [build_targets_go] at h
    cases h
    refine ⟨by simp, by simp, ?_⟩
    intro u
    simp
  | cons p rest ih =>
    intro seen ts h
    rw [build_targets_go_cons] at h
    cases hq : qualifies p with
    | error e => rw [hq] at h; cases h
    | ok o =>
      rw [hq] at h
      cases o with
      | none =>
        obtain ⟨h1, h2, h3⟩ := ih seen ts h
        refine ⟨h1, h2, ?_⟩
        intro u
        rw [h3 u]
        constructor
        · rintro ⟨hs, p', hp', hr⟩
          exact ⟨hs, p', List.mem_cons_of_mem _ hp', hr⟩
        · rintro ⟨hs, p', hp', r', hq', hu⟩
          rcases List.mem_cons.1 hp' with rfl | hp2
          · rw [hq] at hq'; cases hq'
          · exact ⟨hs, p', hp2, r', hq', hu⟩
      | some r =>
        have h' : (if r.url ∈ seen then build_targets_go rest seen
            else (build_targets_go rest (r.url :: seen)).map (fun ts => r :: ts)) =
              .ok ts := h
        by_cases hin : r.url ∈ seen
        · rw [if_pos hin] at h'
          obtain ⟨h1, h2, h3⟩ := ih seen ts h'
          refine ⟨h1, h2, ?_⟩
          intro u
          rw [h3 u]
          constructor
          · rintro ⟨hs, p', hp', hr⟩
            exact ⟨hs, p', List.mem_cons_of_mem _ hp', hr⟩
          · rintro ⟨hs, p', hp', r', hq', hu⟩
            rcases List.mem_cons.1 hp' with rfl | hp2
            · rw [hq] at hq'
              injection hq' with hq2
              injection hq2 with hq3
              subst hq3
              exact absurd (hu ▸ hin) hs
            · exact ⟨hs, p', hp2, r', hq', hu⟩
        · rw [if_neg hin] at h'
          cases hb : build_targets_go rest (r.url :: seen) with
          | error e => rw [hb] at h'; cases h'
          | ok ts' =>
            rw [hb] at h'
            simp only [Except.map] at h'
            cases h'
            obtain ⟨h1, h2, h3⟩ := ih (r.url :: seen) ts' hb
            refine ⟨?_, ?_, ?_⟩
            · intro r' hr'
              rcases List.mem_cons.1 hr' with rfl | hr2
              · exact hin
              · intro hmem
                exact h1 r' hr2 (List.mem_cons_of_mem _ hmem)
            · simp only [List.map_cons, List.nodup_cons]
              refine ⟨?_, h2⟩
              intro hmem
              rcases List.mem_map.1 hmem with ⟨r', hr', hurl⟩
              exact h1 r' hr' (hurl ▸ List.mem_cons_self _ _)
            · intro u
              constructor
              · rintro ⟨r', hr', hu⟩
                rcases List.mem_cons.1 hr' with rfl | hr2
                · exact ⟨hu ▸ hin, p, List.mem_cons_self _ _, r', hq, hu⟩
                · obtain ⟨hs, p', hp', rr, hqq, huu⟩ := (h3 u).1 ⟨r', hr2, hu⟩
                  refine ⟨fun hmem => hs (List.mem_cons_of_mem _ hmem),
                    p', List.mem_cons_of_mem _ hp', rr, hqq, huu⟩
              · rintro ⟨hs, p', hp', r', hq', hu⟩
                by_cases hur : u = r.url
                · exact ⟨r, List.mem_cons_self _ _, hur.symm⟩
                · rcases List.mem_cons.1 hp' with rfl | hp2
                  · rw [hq] at hq'
                    injection hq' with hq2
                    injection hq2 with hq3
                    subst hq3
                    exact absurd hu.symm hur
                  · have hnotin : u ∉ r.url :: seen := by
                      intro hmem
                      rcases List.mem_cons.1 hmem with h' | h'
                      · exact hur h'
                      · exact hs h'
                    obtain ⟨rr, hrr, huu⟩ := (h3 u).2 ⟨hnotin, p', hp2, r', hq', hu⟩
                    exact ⟨rr, List.mem_cons_of_mem _ hrr, huu⟩

/-- On success, the row of the first product qualifying with a given url is
in the output. -/
theorem build_targets_go_first :
    ∀ (pre : List Product) (p : Product) (post : List Product)
      (seen : List Str) (ts : List TargetRow) (r : TargetRow),
      build_targets_go (pre ++ p :: post) seen = .ok ts →
      qualifies p = .ok (some r) →
      r.url ∉ seen →
      (∀ q ∈ pre, ∀ r', qualifies q = .ok (some r') → r'.url ≠ r.url) →
      r ∈ ts := by
  intro pre
  induction pre with
  | nil =>
    intro p post seen ts r h hq hns _
    rw [List.nil_append, build_targets_go_cons, hq] at h
    have h' : (if r.url ∈ seen then build_targets_go post seen
        else (build_targets_go post (r.url :: seen)).map (fun ts => r :: ts)) =
          .ok ts := h
    rw [if_neg hns] at h'
    cases hb : build_targets_go post (r.url :: seen) with
    | error e => rw [hb] at h'; cases h'
    | ok ts' =>
      rw [hb] at h'
      simp only [Except.map] at h'
      cases h'
      exact List.mem_cons_self _ _
  | cons q pre' ih =>
    intro p post seen ts r h hq hns hfirst
    rw [List.cons_append, build_targets_go_cons] at h
    cases hqq : qualifies q with
    | error e => rw [hqq] at h; cases h
    | ok o =>
      rw [hqq] at h
      cases o with
      | none =>
        exact ih p post seen ts r h hq hns
          (fun q' hq' => hfirst q' (List.mem_cons_of_mem _ hq'))
      | some r' =>
        have h2 : (if r'.url ∈ seen then build_targets_go (pre' ++ p :: post) seen
            else (build_targets_go (pre' ++ p :: post) (r'.url :: seen)).map
              (fun ts => r' :: ts)) = .ok ts := h
        by_cases hin : r'.url ∈ seen
        · rw [if_pos hin] at h2
          exact ih p post seen ts r h2 hq hns
            (fun q' hq' => hfirst q' (List.mem_cons_of_mem _ hq'))
        · rw [if_neg hin] at h2
          cases hb : build_targets_go (pre' ++ p :: post) (r'.url :: seen) with
          | error e => rw [hb] at h2; cases h2
          | ok ts' =>
            rw [hb] at h2
            simp only [Except.map] at h2
            cases h2
            have hne : r.url ∉ r'.url :: seen := by
              intro hmem
              rcases List.mem_cons.1 hmem with h' | h'
              · exact hfirst q (List.mem_cons_self _ _) r' hqq h'.symm
              · exact hns h'
            exact List.mem_cons_of_mem _
              (ih p post (r'.url :: seen) ts' r hb hq hne
                (fun q' hq' => hfirst q' (List.mem_cons_of_mem _ hq')))

/-- C10: on success, the prepared target list has pairwise-distinct urls
(so at most one entry per target url); two entries with the same url are the
same entry; a url appears iff some product qualifies with it; the entry for
a url is the one of the first product qualifying with it (so a later
product with the same url is dropped); and every key of the resolved
product-to-remote-id mapping comes from a row of the list, so a dropped
product gets no mapping of its own. -/
theorem C10_dedup_first_wins (products : List Product) (ts : List TargetRow)
    (h : build_targets_from_products products = .ok ts) :
    (ts.map (fun r => r.url)).Nodup ∧
    (∀ r1 ∈ ts, ∀ r2 ∈ ts, r1.url = r2.url → r1 = r2) ∧
    (∀ u, (∃ r ∈ ts, r.url = u) ↔
      ∃ p ∈ products, ∃ r', qualifies p = .ok (some r') ∧ r'.url = u) ∧
    (∀ (pre : List Product) (p : Product) (post : List Product) (r : TargetRow),
      products = pre ++ p :: post →
      qualifies p = .ok (some r) →
      (∀ q ∈ pre, ∀ r', qualifies q = .ok (some r') → r'.url ≠ r.url) →
      r ∈ ts) ∧
    (∀ (add : AddResult) (all_targets : List ListedTarget) (kv : Str × Str),
      kv ∈ resolve_target_mapping ts add all_targets →
      ∃ r ∈ ts, kv.1 = intToStr r.product_id) := by
  unfold build_targets_from_products at h
  obtain ⟨h1, h2, h3⟩ := build_targets_go_inv products [] ts h
  refine ⟨h2, ?_, ?_, ?_, ?_⟩
  · intro r1 hr1 r2 hr2 hurl
    exact List.inj_on_of_nodup_map h2 hr1 hr2 hurl
  · intro u
    rw [h3 u]
    simp
  · intro pre p post r hps hq hfirst
    exact build_targets_go_first pre p post [] ts r (hps ▸ h) hq (by simp) hfirst
  · intro add all_targets kv hkv
    unfold resolve_target_mapping at hkv
    rcases List.mem_flatMap.1 hkv with ⟨row, hrow, hin⟩
    refine ⟨row, hrow, ?_⟩
    by_cases hn : normalize_target_address row.url = []
    · rw [if_pos hn] at hin
      cases hin
    · rw [if_neg hn] at hin
      cases hfind : dictGet (response_inserts add ++ listing_inserts all_targets)
          (normalize_target_address row.url) with
      | none => rw [hfind] at hin; cases hin
      | some tid =>
        rw [hfind] at hin
        have := List.mem_singleton.1 hin
        rw [this]

deriving instance DecidableEq for Except

/-- `"a.com"`. -/
def aCom : Str := ['a', '.', 'c', 'o', 'm']

/-- Witness for C10: products 1 (`a.com`) and 2 (`www.a.com`) both map to
`https://a.com`; only product 1's row survives. -/
theorem C10_dedup_first_wins_witness :
    ((([⟨1, httpsStr ++ schemeSep ++ aCom, aCom⟩] : List TargetRow).map
      (fun r => r.url)).Nodup) ∧
    (⟨1, httpsStr ++ schemeSep ++ aCom, aCom⟩ : TargetRow) ∈
      ([⟨1, httpsStr ++ schemeSep ++ aCom, aCom⟩] : List TargetRow) := by
  have h := C10_dedup_first_wins
    [⟨.num 1, some aCom, .bool true⟩, ⟨.num 2, some (wwwDot ++ aCom), .bool true⟩]
    [⟨1, httpsStr ++ schemeSep ++ aCom, aCom⟩] (by decide)
  refine ⟨h.1, ?_⟩
  exact h.2.2.2.1 [] ⟨.num 1, some aCom, .bool true⟩
    [⟨.num 2, some (wwwDot ++ aCom), .bool true⟩]
    ⟨1, httpsStr ++ schemeSep ++ aCom, aCom⟩ rfl (by decide)
    (by intro q hq; cases hq)

/-! ## C1: reconciliation lookup priority -/

/-- A key bound in the second dict part wins over the first part: the
lookup of the concatenated insertion sequence is the lookup of the second
part. -/
theorem dictGet_append_right (d1 d2 : PyDict) (k : Str)
    (h : ∃ kv ∈ d2, kv.1 = k) : dictGet (d1 ++ d2) k = dictGet d2 k := by
  unfold dictGet
  rw [List.reverse_append, List.find?_append]
  have hsome : (d2.reverse.find? (fun kv => kv.1 = k)).isSome := by
    rw [List.find?_isSome]
    obtain ⟨kv, hkv, hk⟩ := h
    exact ⟨kv, List.mem_reverse.2 hkv, by simp [hk]⟩
  cases hfind : d2.reverse.find? (fun kv => kv.1 = k) with
  | none => rw [hfind] at hsome; cases hsome
  | some kv => simp [hfind]

/-- C1 (amended): the full-listing scan overwrites the bulk-create response
scan, so for every submitted row whose normalized address is bound by the
full listing, the lookup table resolves to the full listing's remote id
(the response only fills addresses the listing does not bind), and that id
is what the returned mapping records for the row. -/
theorem C1_listing_overrides_response (submitted : List TargetRow)
    (add : AddResult) (all_targets : List ListedTarget) (row : TargetRow)
    (tid : Str) (hrow : row ∈ submitted)
    (hnorm : normalize_target_address row.url ≠ [])
    (hbound : ∃ kv ∈ listing_inserts all_targets,
      kv.1 = normalize_target_address row.url) :
    dictGet (response_inserts add ++ listing_inserts all_targets)
        (normalize_target_address row.url) =
      dictGet (listing_inserts all_targets) (normalize_target_address row.url) ∧
    (dictGet (listing_inserts all_targets) (normalize_target_address row.url) =
        some tid →
      (intToStr row.product_id, tid) ∈
        resolve_target_mapping submitted add all_targets) := by
  have heq := dictGet_append_right (response_inserts add)
    (listing_inserts all_targets) (normalize_target_address row.url) hbound
  refine ⟨heq, ?_⟩
  intro htid
  unfold resolve_target_mapping
  refine List.mem_flatMap.2 ⟨row, hrow, ?_⟩
  rw [if_neg hnorm, heq, htid]
  exact List.mem_singleton.2 rfl

/-- `"http://a"`, the shared target address of the C1 counterexample. -/
def addrA : Str := ['h', 't', 't', 'p', ':', '/', '/', 'a']

/-- C1 counterexample: the submitted item's address appears in the
bulk-create response with remote id `r1` and in the full listing with
remote id `r2`; the mapping associates the item with `r2`, the id from the
full listing, not with `r1` from the response. -/
theorem C1_counterexample :
    resolve_target_mapping [⟨1, addrA, []⟩]
        ⟨[⟨some ['r', '1'], some addrA, none, none⟩]⟩
        [⟨some ['r', '2'], some addrA, none⟩] =
      [(['1'], ['r', '2'])] ∧
    (['r', '2'] : Str) ≠ ['r', '1'] := by
  constructor
  · decide
  · decide

/-- Witness for the amended C1 at the counterexample's input. -/
theorem C1_listing_overrides_response_witness :
    (intToStr (1 : Int), (['r', '2'] : Str)) ∈
      resolve_target_mapping [⟨1, addrA, []⟩]
        ⟨[⟨some ['r', '1'], some addrA, none, none⟩]⟩
        [⟨some ['r', '2'], some addrA, none⟩] := by
  refine (C1_listing_overrides_response [⟨1, addrA, []⟩]
    ⟨[⟨some ['r', '1'], some addrA, none, none⟩]⟩
    [⟨some ['r', '2'], some addrA, none⟩]
    ⟨1, addrA, []⟩ ['r', '2'] (by decide) (by decide)
    ⟨(addrA, ['r', '2']), by decide⟩).2 (by decide)

/-! ## C3: www/scheme/path stripping toolkit -/

theorem isPrefixOf_append_self (l t : Str) : l.isPrefixOf (l ++ t) = true := by
  rw [List.isPrefixOf_iff_prefix]
  exact List.prefix_append l t

theorem takeWhile_eq_self_of_all (p : Char → Bool) :
    ∀ s : Str, (∀ x ∈ s, p x = true) → s.takeWhile p = s := by
  intro s
  induction s with
  | nil => intro _; rfl
  | cons a t ih =>
    intro h
    rw [List.takeWhile_cons, if_pos (h a (List.mem_cons_self a t)),
      ih (fun x hx => h x (List.mem_cons_of_mem _ hx))]

theorem takeWhile_append_stop (p : Char → Bool) :
    ∀ (s : Str) (c : Char) (t : Str), (∀ x ∈ s, p x = true) → p c = false →
      (s ++ c :: t).takeWhile p = s := by
  intro s
  induction s with
  | nil =>
    intro c t _ hc
    rw [List.nil_append, List.takeWhile_cons, if_neg (by simp [hc])]
  | cons a s' ih =>
    intro c t h hc
    rw [List.cons_append, List.takeWhile_cons,
      if_pos (h a (List.mem_cons_self a s')),
      ih c t (fun x hx => h x (List.mem_cons_of_mem _ hx)) hc]

theorem dropWhile_eq_self_of_head (p : Char → Bool) (s : Str)
    (h : ∀ c, s.head? = some c → p c = false) : s.dropWhile p = s := by
  cases s with
  | nil => rfl
  | cons a t => simp [List.dropWhile_cons, h a rfl]

theorem stripBy_eq_self_of_ends (p : Char → Bool) (s : Str)
    (h1 : ∀ c, s.head? = some c → p c = false)
    (h2 : ∀ c, s.getLast? = some c → p c = false) : stripBy p s = s := by
  unfold stripBy
  rw [dropWhile_eq_self_of_head p s h1,
    dropWhile_eq_self_of_head p s.reverse
      (fun c hc => h2 c (by rwa [List.head?_reverse] at hc)),
    List.reverse_reverse]

theorem contains_eq_false_of_forall (s : Str) (c : Char)
    (h : ∀ x ∈ s, x ≠ c) : s.contains c = false := by
  cases hb : s.contains c with
  | false => rfl
  | true => exact absurd rfl (h c (List.mem_of_elem_eq_true hb))

/-- The characters a plain lowercase domain name may use. -/
def domainChars : Str :=
  ['a', 'b', 'c', 'd', 'e', 'f', 'g', 'h', 'i', 'j', 'k', 'l', 'm', 'n', 'o',
   'p', 'q', 'r', 's', 't', 'u', 'v', 'w', 'x', 'y', 'z',
   '0', '1', '2', '3', '4', '5', '6', '7', '8', '9', '.', '-']

/-- The facts about domain characters the C3 derivation needs. -/
theorem domainChar_facts (c : Char) (h : c ∈ domainChars) :
    pyIsSpace c = false ∧ Char.toLower c = c ∧ c ≠ '/' ∧ c ≠ '?' ∧ c ≠ '#' ∧
      c ≠ '@' ∧ c ≠ '[' ∧ c ≠ ']' ∧ c ≠ ':' := by
  have h' : c ∈ (['a', 'b', 'c', 'd', 'e', 'f', 'g', 'h', 'i', 'j', 'k', 'l',
      'm', 'n', 'o', 'p', 'q', 'r', 's', 't', 'u', 'v', 'w', 'x', 'y', 'z',
      '0', '1', '2', '3', '4', '5', '6', '7', '8', '9', '.', '-'] : List Char) := h
  clear h
  fin_cases h' <;> decide

/-- `"https://WWW."`, the prefix of the C3 input. -/
def c3Prefix : Str := schemeHttpsPrefix ++ ['W', 'W', 'W', '.']

/-- `"/path"`, the suffix of the C3 input. -/
def slashPath : Str := ['/', 'p', 'a', 't', 'h']

theorem afterLastChar_eq_self (sep : Char) (s : Str) (h : ∀ x ∈ s, x ≠ sep) :
    afterLastChar sep s = s := by
  unfold afterLastChar
  rw [takeWhile_eq_self_of_all _ _
    (fun x hx => by simp [h x (List.mem_reverse.1 hx)]), List.reverse_reverse]

/-- `"WWW."`. -/
def wwwUpper : Str := ['W', 'W', 'W', '.']

/-- C3 (amended): on `"https://WWW." ++ d ++ "/path"` for a non-empty
lowercase domain `d` with no trailing dot, `extract_host_from_product_name`
strips the scheme and the path but keeps the leading `www.` (returning
`"www." ++ d`); the separate `strip_www` then yields `d`; and
`normalize_product_name` keeps both the scheme and the `www.`, returning
`"https://www." ++ d`. -/
theorem C3_www_strip_composed (d : Str) (hne : d ≠ [])
    (hchars : ∀ c ∈ d, c ∈ domainChars) (hlast : d.getLast? ≠ some '.') :
    extract_host_from_product_name (c3Prefix ++ d ++ slashPath) =
      .ok (wwwDot ++ d) ∧
    strip_www (wwwDot ++ d) = d ∧
    normalize_product_name (c3Prefix ++ d ++ slashPath) =
      .ok (httpsStr ++ schemeSep ++ (wwwDot ++ d)) := by
  have hdf := fun c hc => domainChar_facts c (hchars c hc)
  have hnospace : ∀ c ∈ c3Prefix ++ d ++ slashPath, pyIsSpace c = false := by
    intro c hc
    rcases List.mem_append.1 hc with hc | hc
    · rcases List.mem_append.1 hc with hc | hc
      · exact (by decide : ∀ x ∈ c3Prefix, pyIsSpace x = false) c hc
      · exact (hdf c hc).1
    · exact (by decide : ∀ x ∈ slashPath, pyIsSpace x = false) c hc
  have hstrip : pyStrip (c3Prefix ++ d ++ slashPath) = c3Prefix ++ d ++ slashPath :=
    stripBy_eq_self _ _ hnospace
  have hlowd : pyLower d = d := pyLower_eq_self d (fun c hc => (hdf c hc).2.1)
  have hlowd2 : d.map Char.toLower = d := hlowd
  have hlower : pyLower (c3Prefix ++ d ++ slashPath) =
      (schemeHttpsPrefix ++ wwwDot) ++ d ++ slashPath := by
    unfold pyLower
    rw [List.map_append, List.map_append]
    rw [show (c3Prefix.map Char.toLower) = schemeHttpsPrefix ++ wwwDot by decide]
    rw [show (slashPath.map Char.toLower) = slashPath by decide]
    rw [show d.map Char.toLower = d from hlowd]
  have hpre1 : schemeHttpPrefix.isPrefixOf
      ((schemeHttpsPrefix ++ wwwDot) ++ d ++ slashPath) = false := rfl
  have hpre2 : schemeHttpsPrefix.isPrefixOf
      ((schemeHttpsPrefix ++ wwwDot) ++ d ++ slashPath) = true := rfl
  have hdrop : (c3Prefix ++ d ++ slashPath).drop 8 = wwwUpper ++ (d ++ slashPath) := rfl
  have hpred : ∀ x ∈ wwwUpper ++ d,
      (fun c => c ≠ '/' && c ≠ '?' && c ≠ '#') x = true := by
    intro x hx
    rcases List.mem_append.1 hx with hx | hx
    · exact (by decide : ∀ y ∈ wwwUpper,
        (fun c => c ≠ '/' && c ≠ '?' && c ≠ '#') y = true) x hx
    · obtain ⟨_, _, h3, h4, h5, _⟩ := hdf x hx
      simp [h3, h4, h5]
  have hnet : urlNetloc 8 (c3Prefix ++ d ++ slashPath) = wwwUpper ++ d := by
    unfold urlNetloc
    rw [hdrop, show wwwUpper ++ (d ++ slashPath) = (wwwUpper ++ d) ++ '/' ::
      ['p', 'a', 't', 'h'] by simp [wwwUpper, slashPath]]
    exact takeWhile_append_stop _ _ '/' _ hpred (by decide)
  have hnetchars : ∀ x ∈ wwwUpper ++ d,
      x ≠ '[' ∧ x ≠ ']' ∧ x ≠ '@' ∧ x ≠ ':' := by
    intro x hx
    rcases List.mem_append.1 hx with hx | hx
    · exact (by decide : ∀ y ∈ wwwUpper,
        y ≠ '[' ∧ y ≠ ']' ∧ y ≠ '@' ∧ y ≠ ':') x hx
    · obtain ⟨_, _, _, _, _, h6, h7, h8, h9⟩ := hdf x hx
      exact ⟨h7, h8, h6, h9⟩
  have hbr1 : (wwwUpper ++ d).contains '[' = false :=
    contains_eq_false_of_forall _ _ (fun x hx => (hnetchars x hx).1)
  have hbr2 : (wwwUpper ++ d).contains ']' = false :=
    contains_eq_false_of_forall _ _ (fun x hx => (hnetchars x hx).2.1)
  have hbrok : urlBracketsOk (wwwUpper ++ d) = true := by
    unfold urlBracketsOk
    rw [hbr1, hbr2]
    rfl
  have hinfo : afterLastChar '@' (wwwUpper ++ d) = wwwUpper ++ d :=
    afterLastChar_eq_self _ _ (fun x hx => (hnetchars x hx).2.2.1)
  have hhostu : urlHostname (wwwUpper ++ d) = wwwDot ++ d := by
    unfold urlHostname
    dsimp only
    rw [hinfo, hbr1]
    simp only [Bool.false_eq_true, if_false]
    rw [takeWhile_eq_self_of_all _ _
      (fun x hx => by simp [(hnetchars x hx).2.2.2])]
    unfold pyLower
    rw [List.map_append, show wwwUpper.map Char.toLower = wwwDot by decide, hlowd2]
  have hlastd : ∀ c, (wwwDot ++ d).getLast? = some c →
      c ∈ domainChars ∧ c ≠ '.' := by
    intro c hc
    rw [List.getLast?_append_of_ne_nil _ hne] at hc
    refine ⟨hchars c (List.mem_of_mem_getLast? hc), ?_⟩
    intro h
    exact hlast (h ▸ hc)
  have hwdhead : ∀ c, (wwwDot ++ d).head? = some c → c = 'w' := by
    intro c hc
    rw [show (wwwDot ++ d).head? = some 'w' from rfl] at hc
    cases hc
    rfl
  have hstripwd : pyStrip (wwwDot ++ d) = wwwDot ++ d := by
    refine stripBy_eq_self_of_ends _ _ ?_ ?_
    · intro c hc
      rw [hwdhead c hc]
      decide
    · intro c hc
      obtain ⟨hcd, _⟩ := hlastd c hc
      exact (domainChar_facts c hcd).1
  have hdots : stripDots (wwwDot ++ d) = wwwDot ++ d := by
    refine stripBy_eq_self_of_ends _ _ ?_ ?_
    · intro c hc
      rw [hwdhead c hc]
      decide
    · intro c hc
      obtain ⟨_, hcd⟩ := hlastd c hc
      simp [hcd]
  have hlowwd : pyLower (wwwDot ++ d) = wwwDot ++ d := by
    unfold pyLower
    rw [List.map_append, show wwwDot.map Char.toLower = wwwDot by decide, hlowd2]
  have hinne : (c3Prefix ++ d ++ slashPath) ≠ [] := by
    rw [show c3Prefix ++ d ++ slashPath =
      'h' :: (('t' :: 't' :: 'p' :: 's' :: ':' :: '/' :: '/' :: 'W' :: 'W' ::
        'W' :: '.' :: d) ++ slashPath) from rfl]
    exact List.cons_ne_nil _ _
  have hwdne : (wwwDot ++ d) ≠ [] := by
    rw [show wwwDot ++ d = 'w' :: ('w' :: 'w' :: '.' :: d) from rfl]
    exact List.cons_ne_nil _ _
  have hport : urlPort (wwwUpper ++ d) = .ok none := by
    unfold urlPort
    dsimp only
    rw [hinfo, hbr1]
    simp only [Bool.false_eq_true, if_false]
    rw [show afterFirstChar ':' (wwwUpper ++ d) = [] by
      unfold afterFirstChar
      rw [if_neg (by
        rw [contains_eq_false_of_forall _ _ (fun x hx => (hnetchars x hx).2.2.2)]
        exact Bool.false_ne_true)]]
    rfl
  refine ⟨?_, ?_, ?_⟩
  · unfold extract_host_from_product_name
    dsimp only
    rw [hstrip, if_neg hinne, hlower, hpre1, hpre2]
    simp only [Bool.false_or, if_true, reduceIte, Except.map]
    rw [hnet, hbrok]
    simp only [Bool.true_eq_false, if_false, reduceIte, Except.map]
    rw [hhostu, hstripwd, hstripwd, hdots, hlowwd]
  · unfold strip_www
    dsimp only
    rw [hstripwd, hlowwd,
      show wwwDot.isPrefixOf (wwwDot ++ d) = true from isPrefixOf_append_self _ _]
    simp only [if_true, reduceIte]
    rfl
  · unfold normalize_product_name
    dsimp only
    rw [hstrip, if_neg hinne, hlower, hpre1, hpre2]
    simp only [Bool.false_or, if_true, reduceIte]
    rw [show httpsStr.length + 3 = 8 from rfl]
    rw [hnet, hbrok]
    simp only [Bool.true_eq_false, if_false, reduceIte]
    rw [hhostu, hstripwd, hlowwd, if_neg hwdne, hport]

/-- `"https://WWW.example.com/path"`. -/
def c3Example : Str :=
  c3Prefix ++ ['e', 'x', 'a', 'm', 'p', 'l', 'e', '.', 'c', 'o', 'm'] ++ slashPath

/-- C3 counterexample: with `d = "example.com"`, neither normalization
function yields `d`: `normalize_product_name` keeps the scheme and the
`www.` prefix, and `extract_host_from_product_name` keeps the `www.`. -/
theorem C3_counterexample :
    normalize_product_name c3Example =
      .ok (httpsStr ++ schemeSep ++ (wwwDot ++
        ['e', 'x', 'a', 'm', 'p', 'l', 'e', '.', 'c', 'o', 'm'])) ∧
    extract_host_from_product_name c3Example =
      .ok (wwwDot ++ ['e', 'x', 'a', 'm', 'p', 'l', 'e', '.', 'c', 'o', 'm']) ∧
    normalize_product_name c3Example ≠
      .ok ['e', 'x', 'a', 'm', 'p', 'l', 'e', '.', 'c', 'o', 'm'] ∧
    extract_host_from_product_name c3Example ≠
      .ok ['e', 'x', 'a', 'm', 'p', 'l', 'e', '.', 'c', 'o', 'm'] := by
  refine ⟨by decide, by decide, by decide, by decide⟩

/-- Witness for the amended C3 at `d = "example.com"`. -/
theorem C3_www_strip_composed_witness :
    strip_www (wwwDot ++ ['e', 'x', 'a', 'm', 'p', 'l', 'e', '.', 'c', 'o', 'm']) =
      ['e', 'x', 'a', 'm', 'p', 'l', 'e', '.', 'c', 'o', 'm'] :=
  (C3_www_strip_composed ['e', 'x', 'a', 'm', 'p', 'l', 'e', '.', 'c', 'o', 'm']
    (by decide) (by decide) (by decide)).2.1

/-! ## C6: ordering of the built target-line list -/

theorem lexLt_nil_right : ∀ b : Str, lexLt b [] = false := by
  intro b
  cases b <;> rfl

theorem lexLt_trichotomy : ∀ a b : Str, lexLt a b = true ∨ a = b ∨ lexLt b a = true := by
  intro a
  induction a with
  | nil =>
    intro b
    cases b with
    | nil => exact Or.inr (Or.inl rfl)
    | cons c t => exact Or.inl rfl
  | cons c t ih =>
    intro b
    cases b with
    | nil => exact Or.inr (Or.inr rfl)
    | cons c2 t2 =>
      rcases lt_trichotomy c c2 with h | h | h
      · left
        simp [lexLt, h]
      · subst h
        rcases ih t2 with h2 | h2 | h2
        · left
          simp [lexLt, lt_irrefl, h2]
        · right
          left
          rw [h2]
        · right
          right
          simp [lexLt, lt_irrefl, h2]
      · right
        right
        simp [lexLt, h]

theorem lexLt_trans :
    ∀ a b c : Str, lexLt a b = true → lexLt b c = true → lexLt a c = true := by
  intro a
  induction a with
  | nil =>
    intro b c hab hbc
    cases b with
    | nil => rw [lexLt_nil_right] at hab; cases hab
    | cons y t =>
      cases c with
      | nil => rw [lexLt_nil_right] at hbc; cases hbc
      | cons z u => rfl
  | cons x s ih =>
    intro b c hab hbc
    cases b with
    | nil => rw [lexLt_nil_right] at hab; cases hab
    | cons y t =>
      cases c with
      | nil => rw [lexLt_nil_right] at hbc; cases hbc
      | cons z u =>
        simp only [lexLt] at hab hbc ⊢
        rcases lt_trichotomy x y with h1 | h1 | h1
        · rcases lt_trichotomy y z with h2 | h2 | h2
          · simp [lt_trans h1 h2]
          · subst h2
            simp [h1]
          · rw [if_neg (lt_asymm h2), if_pos h2] at hbc
            cases hbc
        · subst h1
          rw [if_neg (lt_irrefl x), if_neg (lt_irrefl x)] at hab
          rcases lt_trichotomy x z with h2 | h2 | h2
          · simp [h2]
          · subst h2
            rw [if_neg (lt_irrefl x), if_neg (lt_irrefl x)] at hbc ⊢
            exact ih t u hab hbc
          · rw [if_neg (lt_asymm h2), if_pos h2] at hbc
            cases hbc
        · rw [if_neg (lt_asymm h1), if_pos h1] at hab
          cases hab

instance : IsTrans Str lexLe := ⟨by
  intro a b c hab hbc
  rcases hab with hab | rfl
  · rcases hbc with hbc | rfl
    · exact Or.inl (lexLt_trans a b c hab hbc)
    · exact Or.inl hab
  · exact hbc⟩

instance : IsTotal Str lexLe := ⟨by
  intro a b
  rcases lexLt_trichotomy a b with h | h | h
  · exact Or.inl (Or.inl h)
  · exact Or.inl (Or.inr h)
  · exact Or.inr (Or.inl h)⟩

theorem pySortedSet_nodup (l : List Str) : (pySortedSet l).Nodup :=
  ((List.perm_insertionSort lexLe l.dedup).symm).nodup l.nodup_dedup

theorem pySortedSet_mem (l : List Str) (x : Str) : x ∈ pySortedSet l ↔ x ∈ l :=
  (List.perm_insertionSort lexLe l.dedup).mem_iff.trans (List.mem_dedup)

/-- A sorted duplicate-free list is strictly increasing. -/
theorem pySortedSet_sorted (l : List Str) :
    (pySortedSet l).Pairwise (fun a b => lexLt a b = true) := by
  have hs : List.Sorted lexLe (pySortedSet l) :=
    List.sorted_insertionSort lexLe l.dedup
  have hn := pySortedSet_nodup l
  refine (List.Pairwise.and hs hn).imp ?_
  intro a b hab
  rcases hab.1 with h | h
  · exact h
  · exact absurd h hab.2

theorem dedupeKeepFirst_mem :
    ∀ (xs seen : List Str) (a : Str),
      a ∈ dedupeKeepFirst seen xs ↔ (a ∈ xs ∧ a ≠ [] ∧ a ∉ seen) := by
  intro xs
  induction xs with
  | nil =>
    intro seen a
    simp [dedupeKeepFirst]
  | cons x rest ih =>
    intro seen a
    unfold dedupeKeepFirst
    by_cases hx : x ≠ [] ∧ x ∉ seen
    · rw [if_pos hx]
      constructor
      · intro ha
        rcases List.mem_cons.1 ha with rfl | ha'
        · exact ⟨List.mem_cons_self _ _, hx.1, hx.2⟩
        · obtain ⟨h1, h2, h3⟩ := (ih (x :: seen) a).1 ha'
          exact ⟨List.mem_cons_of_mem _ h1, h2,
            fun hmem => h3 (List.mem_cons_of_mem _ hmem)⟩
      · rintro ⟨h1, h2, h3⟩
        rcases List.mem_cons.1 h1 with rfl | h1'
        · exact List.mem_cons_self _ _
        · by_cases hax : a = x
          · subst hax
            exact List.mem_cons_self _ _
          · exact List.mem_cons_of_mem _ ((ih (x :: seen) a).2
              ⟨h1', h2, fun hmem => by
                rcases List.mem_cons.1 hmem with h' | h'
                · exact hax h'
                · exact h3 h'⟩)
    · rw [if_neg hx]
      rw [ih seen a]
      constructor
      · rintro ⟨h1, h2, h3⟩
        exact ⟨List.mem_cons_of_mem _ h1, h2, h3⟩
      · rintro ⟨h1, h2, h3⟩
        rcases List.mem_cons.1 h1 with rfl | h1'
        · exfalso
          exact hx ⟨h2, h3⟩
        · exact ⟨h1', h2, h3⟩

theorem dedupeKeepFirst_nodup :
    ∀ (xs seen : List Str), (dedupeKeepFirst seen xs).Nodup := by
  intro xs
  induction xs with
  | nil => intro seen; simp [dedupeKeepFirst]
  | cons x rest ih =>
    intro seen
    unfold dedupeKeepFirst
    by_cases hx : x ≠ [] ∧ x ∉ seen
    · rw [if_pos hx]
      refine List.nodup_cons.2 ⟨?_, ih (x :: seen)⟩
      intro hmem
      obtain ⟨_, _, h3⟩ := (dedupeKeepFirst_mem rest (x :: seen) x).1 hmem
      exact h3 (List.mem_cons_self _ _)
    · rw [if_neg hx]
      exact ih seen

/-- Index of the first occurrence of `a` (length of the list if absent). -/
def firstIdx (a : Str) : List Str → Nat
  | [] => 0
  | x :: rest => if x = a then 0 else firstIdx a rest + 1

theorem dedupeKeepFirst_first_order :
    ∀ (xs seen : List Str),
      (dedupeKeepFirst seen xs).Pairwise
        (fun a b => firstIdx a xs < firstIdx b xs) := by
  intro xs
  induction xs with
  | nil => intro seen; simp [dedupeKeepFirst]
  | cons x rest ih =>
    intro seen
    have hcons : ∀ a : Str, a ≠ x → firstIdx a (x :: rest) = firstIdx a rest + 1 := by
      intro a ha
      rw [show firstIdx a (x :: rest) = if x = a then 0 else firstIdx a rest + 1
        from rfl, if_neg (Ne.symm ha)]
    have transfer : ∀ s : List Str, (∀ a ∈ dedupeKeepFirst s rest, a ≠ x) →
        (dedupeKeepFirst s rest).Pairwise
          (fun a b => firstIdx a (x :: rest) < firstIdx b (x :: rest)) := by
      intro s hne
      refine (ih s).imp_of_mem ?_
      intro a b ha hb hab
      show firstIdx a (x :: rest) < firstIdx b (x :: rest)
      rw [hcons a (hne a ha), hcons b (hne b hb)]
      omega
    unfold dedupeKeepFirst
    by_cases hx : x ≠ [] ∧ x ∉ seen
    · rw [if_pos hx]
      refine List.pairwise_cons.2 ⟨?_, ?_⟩
      · intro b hb
        have hbx : b ≠ x := by
          obtain ⟨_, _, h3⟩ := (dedupeKeepFirst_mem rest (x :: seen) b).1 hb
          intro h
          subst h
          exact h3 (List.mem_cons_self _ _)
        show firstIdx x (x :: rest) < firstIdx b (x :: rest)
        rw [hcons b hbx, show firstIdx x (x :: rest) = 0 by unfold firstIdx; rw [if_pos rfl]]
        omega
      · refine transfer (x :: seen) (fun a ha => ?_)
        obtain ⟨_, _, h3⟩ := (dedupeKeepFirst_mem rest (x :: seen) a).1 ha
        intro h
        subst h
        exact h3 (List.mem_cons_self _ _)
    · rw [if_neg hx]
      refine transfer seen (fun a ha => ?_)
      obtain ⟨h1, h2, h3⟩ := (dedupeKeepFirst_mem rest seen a).1 ha
      intro h
      subst h
      exact hx ⟨h2, h3⟩

theorem domainLine_ne_nil (h l : Str) : domainLine h l ≠ [] := by
  simp [domainLine, httpsStr, httpStr, schemeSep]

/-- C6: on success the built line list is exactly the first-occurrence
dedup of (1) the primary product-type line when its host is a non-empty
non-IP host, (2) the known-accessible domain lines in strictly ascending
host order, (3) the IP:port lines in strictly ascending line order; the
output has no duplicates or empty lines, keeps only first occurrences in
their original order, and starts with the primary line when there is one. -/
theorem C6_line_ordering (pt_name : Str) (domain_hosts ip_lines_set : List Str)
    (out : List Str)
    (h : build_target_lines pt_name domain_hosts ip_lines_set = .ok out) :
    ∃ pt_host, extract_host_from_product_name pt_name = .ok pt_host ∧
      (let primary := if pt_host ≠ [] && !looks_like_ip pt_host then
          [domainLine (strip_www pt_host) pt_name] else []
       let domLines := (pySortedSet domain_hosts).map (fun x => domainLine x pt_name)
       let ipLines := pySortedSet ip_lines_set
       let concat := primary ++ domLines ++ ipLines
       out = dedupeKeepFirst [] concat ∧
       out.Nodup ∧
       (∀ l, l ∈ out ↔ (l ∈ concat ∧ l ≠ [])) ∧
       out.Pairwise (fun a b => firstIdx a concat < firstIdx b concat) ∧
       (pySortedSet domain_hosts).Pairwise (fun a b => lexLt a b = true) ∧
       (pySortedSet ip_lines_set).Pairwise (fun a b => lexLt a b = true) ∧
       (∀ l ∈ primary, out.head? = some l)) := by
  unfold build_target_lines at h
  cases hx : extract_host_from_product_name pt_name with
  | error e => rw [hx] at h; cases h
  | ok pt_host =>
    rw [hx] at h
    have h' : Except.ok (ε := Unit) (dedupeKeepFirst []
        ((if pt_host ≠ [] && !looks_like_ip pt_host then
            [domainLine (strip_www pt_host) pt_name] else []) ++
          (pySortedSet domain_hosts).map (fun x => domainLine x pt_name) ++
          pySortedSet ip_lines_set)) = .ok out := h
    have hout : out = dedupeKeepFirst []
        ((if pt_host ≠ [] && !looks_like_ip pt_host then
            [domainLine (strip_www pt_host) pt_name] else []) ++
          (pySortedSet domain_hosts).map (fun x => domainLine x pt_name) ++
          pySortedSet ip_lines_set) := by
      injection h' with h2
      exact h2.symm
    refine ⟨pt_host, rfl, ?_⟩
    dsimp only
    refine ⟨hout, ?_, ?_, ?_, pySortedSet_sorted _, pySortedSet_sorted _, ?_⟩
    · rw [hout]
      exact dedupeKeepFirst_nodup _ []
    · intro l
      rw [hout, dedupeKeepFirst_mem]
      simp
    · rw [hout]
      exact dedupeKeepFirst_first_order _ []
    · intro l hl
      cases hc : (pt_host ≠ [] && !looks_like_ip pt_host) with
      | false =>
        rw [hc] at hl
        cases hl
      | true =>
        rw [hc] at hl
        rcases List.mem_cons.1 hl with rfl | hl'
        · rw [hout, hc]
          simp only [reduceIte]
          rw [show ([domainLine (strip_www pt_host) pt_name] ++
              (pySortedSet domain_hosts).map (fun x => domainLine x pt_name) ++
              pySortedSet ip_lines_set) =
            domainLine (strip_www pt_host) pt_name ::
              ((pySortedSet domain_hosts).map (fun x => domainLine x pt_name) ++
                pySortedSet ip_lines_set) by simp]
          unfold dedupeKeepFirst
          rw [if_pos ⟨domainLine_ne_nil _ _, List.not_mem_nil _⟩]
          rfl
        · cases hl'
      
/-- Witness for C6 at a concrete input. -/
theorem C6_line_ordering_witness :
    ([domainLine aCom aCom] : List Str).Nodup := by
  obtain ⟨ph, hex, hrest⟩ := C6_line_ordering aCom [] [] [domainLine aCom aCom]
    (by decide)
  exact hrest.2.1

/-! ## C2 and C7: the artifact render/parse round trip -/

/-- Splitting the final newline and end marker off the rendered tail:
the tail always ends in the two characters `D`, `\n`. -/
theorem end_tail_decomp (c : Char) (b : Str) :
    c :: (b ++ '\n' :: (TARGET_ARTIFACT_BLOCK_END ++ ['\n']))
      = (c :: (b ++ '\n' :: TARGET_ARTIFACT_BLOCK_END.dropLast)) ++ ['D', '\n'] := by
  have h1 : TARGET_ARTIFACT_BLOCK_END ++ ['\n']
      = TARGET_ARTIFACT_BLOCK_END.dropLast ++ ['D', '\n'] := by decide
  rw [h1]
  simp [List.append_assoc]

/-- At any position strictly before the end of the body, the end-marker
pattern `\n{END}\s*$` cannot match: the final `D` of the closing marker is a
non-whitespace character in the remaining text. -/
theorem acceptEnd_mid (c : Char) (b : Str) :
    acceptEnd (c :: (b ++ '\n' :: (TARGET_ARTIFACT_BLOCK_END ++ ['\n']))) = false := by
  unfold acceptEnd
  rw [end_tail_decomp]
  have hall : (((c :: (b ++ '\n' :: TARGET_ARTIFACT_BLOCK_END.dropLast)) ++
      ['D', '\n']).drop (TARGET_ARTIFACT_BLOCK_END.length + 1)).all pyIsSpace = false := by
    rw [List.drop_append_eq_append_drop]
    have hlen : TARGET_ARTIFACT_BLOCK_END.length + 1 -
        (c :: (b ++ '\n' :: TARGET_ARTIFACT_BLOCK_END.dropLast)).length = 0 := by
      have h18 : TARGET_ARTIFACT_BLOCK_END.length = 18 := rfl
      have h17 : TARGET_ARTIFACT_BLOCK_END.dropLast.length = 17 := rfl
      simp [List.length_cons, List.length_append, h18, h17]
    rw [hlen]
    have hD : pyIsSpace 'D' = false := by decide
    simp [List.all_append, hD]
  rw [hall, Bool.and_false]

/-- The non-greedy body group of the artifact regex recovers exactly the
rendered body, for every body. -/
theorem findBody_render (body : Str) :
    findBody (body ++ '\n' :: (TARGET_ARTIFACT_BLOCK_END ++ ['\n'])) = some body := by
  induction body with
  | nil => decide
  | cons c b ih =>
    show findBody (c :: (b ++ '\n' :: (TARGET_ARTIFACT_BLOCK_END ++ ['\n']))) = some (c :: b)
    rw [show findBody (c :: (b ++ '\n' :: (TARGET_ARTIFACT_BLOCK_END ++ ['\n'])))
        = if acceptEnd (c :: (b ++ '\n' :: (TARGET_ARTIFACT_BLOCK_END ++ ['\n']))) then some []
          else (findBody (b ++ '\n' :: (TARGET_ARTIFACT_BLOCK_END ++ ['\n']))).map
            (fun x => c :: x) from rfl]
    rw [if_neg (by rw [acceptEnd_mid]; exact Bool.false_ne_true), ih]
    rfl

/-- `parse_targets_artifact` on any rendered artifact: the markers are found,
the body is recovered, and the result is decided by the line-validation loop
over the split, stripped, non-empty lines of the body. -/
theorem parse_render_core (lines : List Str) :
    parse_targets_artifact (render_targets_artifact lines) =
      match checkLinesLoop
          (((pySplitlines (List.intercalate ['\n'] lines)).map pyStrip).filter
            (fun l => l ≠ [])) with
      | some bad => Except.error (ArtifactError.invalidLine bad)
      | none => Except.ok
          (((pySplitlines (List.intercalate ['\n'] lines)).map pyStrip).filter
            (fun l => l ≠ [])) := by
  have hr : render_targets_artifact lines
      = (TARGET_ARTIFACT_BLOCK_START ++ ['\n']) ++
        (List.intercalate ['\n'] lines ++ '\n' :: (TARGET_ARTIFACT_BLOCK_END ++ ['\n'])) := by
    unfold render_targets_artifact
    rw [List.append_cons TARGET_ARTIFACT_BLOCK_START '\n']
  have hdw : (render_targets_artifact lines).dropWhile pyIsSpace
      = (TARGET_ARTIFACT_BLOCK_START ++ ['\n']) ++
        (List.intercalate ['\n'] lines ++ '\n' :: (TARGET_ARTIFACT_BLOCK_END ++ ['\n'])) := by
    rw [hr]
    rw [show (TARGET_ARTIFACT_BLOCK_START ++ ['\n']) ++
          (List.intercalate ['\n'] lines ++ '\n' :: (TARGET_ARTIFACT_BLOCK_END ++ ['\n']))
        = 'P' :: (['T', '_', 'T', 'A', 'R', 'G', 'E', 'T', '_', 'L', 'I', 'S', 'T',
            '_', 'S', 'T', 'A', 'R', 'T', '\n'] ++
          (List.intercalate ['\n'] lines ++ '\n' :: (TARGET_ARTIFACT_BLOCK_END ++ ['\n'])))
        from rfl]
    rw [List.dropWhile_cons, if_neg (by decide)]
  unfold parse_targets_artifact
  rw [hdw]
  rw [if_pos (isPrefixOf_append_self _ _)]
  rw [show TARGET_ARTIFACT_BLOCK_START.length + 1
      = (TARGET_ARTIFACT_BLOCK_START ++ ['\n']).length from by
    simp [List.length_append]]
  rw [List.drop_left]
  rw [findBody_render]

/-- Splitting step: a break-free line followed by a newline contributes one
element to `splitlines`. -/
theorem splitlinesAux_line (t : Str) :
    ∀ (l acc : Str), l.all (fun c => !isLineBreak c) = true →
      splitlinesAux acc false (l ++ '\n' :: t)
        = (acc.reverse ++ l) :: splitlinesAux [] false t := by
  intro l
  induction l with
  | nil =>
    intro acc _
    show splitlinesAux acc false ('\n' :: t) = (acc.reverse ++ []) :: splitlinesAux [] false t
    simp only [splitlinesAux]
    rw [if_neg (by simp), if_neg (by decide), if_pos (by decide)]
    simp
  | cons c l2 ih =>
    intro acc hall
    have hc : isLineBreak c = false := by
      have h1 := List.all_eq_true.mp hall c (List.mem_cons_self c l2)
      simp at h1; exact h1
    have h2 : l2.all (fun c => !isLineBreak c) = true :=
      List.all_eq_true.mpr (fun x hx =>
        List.all_eq_true.mp hall x (List.mem_cons_of_mem c hx))
    have hcr : ¬ (c = '\r') := fun h => by rw [h] at hc; exact absurd hc (by decide)
    show splitlinesAux acc false (c :: (l2 ++ '\n' :: t)) = _
    simp only [splitlinesAux]
    rw [if_neg (by simp), if_neg hcr, if_neg (by rw [hc]; exact Bool.false_ne_true),
      ih (c :: acc) h2]
    simp

/-- Final segment: a break-free remainder yields its single line, or nothing
when it is empty together with the accumulator. -/
theorem splitlinesAux_last :
    ∀ (l acc : Str), l.all (fun c => !isLineBreak c) = true →
      splitlinesAux acc false l
        = if acc.reverse ++ l = [] then [] else [acc.reverse ++ l] := by
  intro l
  induction l with
  | nil =>
    intro acc _
    simp only [splitlinesAux, List.append_nil]
    by_cases h : acc = []
    · subst h; simp
    · rw [if_neg h, if_neg (by simpa using h)]
  | cons c l2 ih =>
    intro acc hall
    have hc : isLineBreak c = false := by
      have h1 := List.all_eq_true.mp hall c (List.mem_cons_self c l2)
      simp at h1; exact h1
    have h2 : l2.all (fun c => !isLineBreak c) = true :=
      List.all_eq_true.mpr (fun x hx =>
        List.all_eq_true.mp hall x (List.mem_cons_of_mem c hx))
    have hcr : ¬ (c = '\r') := fun h => by rw [h] at hc; exact absurd hc (by decide)
    show splitlinesAux acc false (c :: l2) = _
    simp only [splitlinesAux]
    rw [if_neg (by simp), if_neg hcr, if_neg (by rw [hc]; exact Bool.false_ne_true),
      ih (c :: acc) h2]
    rw [if_neg (by simp), if_neg (by simp)]
    simp

/-- Python `splitlines` after appending a break-free line and a newline. -/
theorem pySplitlines_append_line (l t : Str) (h : l.all (fun c => !isLineBreak c) = true) :
    pySplitlines (l ++ '\n' :: t) = l :: pySplitlines t := by
  unfold pySplitlines
  rw [splitlinesAux_line t l [] h]
  simp

/-- Python `splitlines` of a single break-free line. -/
theorem pySplitlines_single (l : Str) (h : l.all (fun c => !isLineBreak c) = true) :
    pySplitlines l = if l = [] then [] else [l] := by
  unfold pySplitlines
  rw [splitlinesAux_last l [] h]
  simp

/-- `"\n".join` of break-free lines: two or more lines. -/
theorem intercalate_cons₂ (l r : Str) (rs : List Str) :
    List.intercalate ['\n'] (l :: r :: rs) = l ++ '\n' :: List.intercalate ['\n'] (r :: rs) := by
  simp [List.intercalate, List.intersperse]

/-- Splitting the joined body back into lines, after stripping and dropping
empties, gives the same processed list as processing the original lines:
`splitlines` only merges away a trailing empty line, which the empty filter
removes on both sides. -/
theorem splitlines_intercalate_filter :
    ∀ lines : List Str, (∀ l ∈ lines, l.all (fun c => !isLineBreak c) = true) →
      ((pySplitlines (List.intercalate ['\n'] lines)).map pyStrip).filter (fun l => l ≠ [])
        = ((lines.map pyStrip).filter (fun l => l ≠ [])) := by
  intro lines
  induction lines with
  | nil => intro _; rfl
  | cons l rest ih =>
    intro h
    have hl : l.all (fun c => !isLineBreak c) = true := h l (List.mem_cons_self l rest)
    have hrest : ∀ x ∈ rest, x.all (fun c => !isLineBreak c) = true :=
      fun x hx => h x (List.mem_cons_of_mem l hx)
    cases rest with
    | nil =>
      rw [show List.intercalate ['\n'] [l] = l from by simp [List.intercalate]]
      rw [pySplitlines_single l hl]
      by_cases hz : l = []
      · subst hz; rfl
      · rw [if_neg hz]
    | cons r rs =>
      rw [intercalate_cons₂ l r rs, pySplitlines_append_line _ _ hl]
      simp only [List.map_cons, List.filter_cons]
      rw [ih hrest]
      simp [List.filter_cons]

/-- `parse_targets_artifact` of a rendered artifact over break-free lines:
the result is decided by running the line validator over the stripped
non-empty input lines. -/
theorem parse_render (lines : List Str)
    (hbf : ∀ l ∈ lines, l.all (fun c => !isLineBreak c) = true) :
    parse_targets_artifact (render_targets_artifact lines) =
      match checkLinesLoop ((lines.map pyStrip).filter (fun l => l ≠ [])) with
      | some bad => Except.error (ArtifactError.invalidLine bad)
      | none => Except.ok ((lines.map pyStrip).filter (fun l => l ≠ [])) := by
  rw [parse_render_core, splitlines_intercalate_filter lines hbf]

/-- The validation loop accepts when every line matches the target regex. -/
theorem checkLinesLoop_none :
    ∀ ls : List Str, (∀ l ∈ ls, matchTargetLine l = true) → checkLinesLoop ls = none := by
  intro ls
  induction ls with
  | nil => intro _; rfl
  | cons a rest ih =>
    intro h
    show (if matchTargetLine a then checkLinesLoop rest else some a) = none
    rw [if_pos (h a (List.mem_cons_self a rest)),
      ih (fun l hl => h l (List.mem_cons_of_mem a hl))]

/-- The validation loop rejects with some failing line when one exists. -/
theorem checkLinesLoop_finds :
    ∀ ls : List Str, (∃ l ∈ ls, matchTargetLine l = false) →
      ∃ bad, checkLinesLoop ls = some bad ∧ matchTargetLine bad = false := by
  intro ls
  induction ls with
  | nil =>
    rintro ⟨l, hl, _⟩
    exact absurd hl (List.not_mem_nil l)
  | cons a rest ih =>
    rintro ⟨l, hl, hf⟩
    by_cases ha : matchTargetLine a = true
    · rcases List.mem_cons.mp hl with rfl | hmem
      · rw [ha] at hf; cases hf
      · obtain ⟨bad, h1, h2⟩ := ih ⟨l, hmem, hf⟩
        refine ⟨bad, ?_, h2⟩
        show (if matchTargetLine a then checkLinesLoop rest else some a) = some bad
        rw [if_pos ha, h1]
    · have ha2 : matchTargetLine a = false := by
        cases hx : matchTargetLine a
        · rfl
        · exact absurd hx ha
      refine ⟨a, ?_, ha2⟩
      show (if matchTargetLine a then checkLinesLoop rest else some a) = some a
      rw [if_neg ha]

/-- A line matched by `TARGET_LINE_RE` is non-empty. -/
theorem matchTargetLine_ne_nil (l : Str) (h : matchTargetLine l = true) : l ≠ [] := by
  intro hz
  subst hz
  exact absurd h (by decide)

/-- C7: the claimed exact round trip is refuted by a matching line with a
trailing space, which parsing strips: the counterexample line satisfies the
spec's line shape and the source regex, yet the round trip returns the
stripped line, not the original. -/
theorem C7_counterexample :
    claimedLineShape ['h', 't', 't', 'p', ':', '/', '/', 'a', ',', ' ', 'b', ' '] = true ∧
    matchTargetLine ['h', 't', 't', 'p', ':', '/', '/', 'a', ',', ' ', 'b', ' '] = true ∧
    parse_targets_artifact (render_targets_artifact
        [['h', 't', 't', 'p', ':', '/', '/', 'a', ',', ' ', 'b', ' ']])
      = Except.ok [['h', 't', 't', 'p', ':', '/', '/', 'a', ',', ' ', 'b']] ∧
    ['h', 't', 't', 'p', ':', '/', '/', 'a', ',', ' ', 'b']
      ≠ ['h', 't', 't', 'p', ':', '/', '/', 'a', ',', ' ', 'b', ' '] := by
  decide

/-- C7 (corrected): the render/parse round trip recovers the lines exactly
when every line matches `TARGET_LINE_RE`, contains no line-break character
and is invariant under stripping; in general parsing returns the stripped
lines. -/
theorem C7_roundtrip_normalized (lines : List Str)
    (h : ∀ l ∈ lines, matchTargetLine l = true ∧ pyStrip l = l ∧
          l.all (fun c => !isLineBreak c) = true) :
    parse_targets_artifact (render_targets_artifact lines) = Except.ok lines := by
  have hbf : ∀ l ∈ lines, l.all (fun c => !isLineBreak c) = true :=
    fun l hl => (h l hl).2.2
  have hmap : lines.map pyStrip = lines := by
    rw [List.map_congr_left (fun l hl => (h l hl).2.1)]
    exact List.map_id lines
  have hfil : lines.filter (fun l => l ≠ []) = lines := by
    apply List.filter_eq_self.mpr
    intro a ha
    exact decide_eq_true (matchTargetLine_ne_nil a (h a ha).1)
  rw [parse_render lines hbf, hmap, hfil,
    checkLinesLoop_none lines (fun l hl => (h l hl).1)]

/-- C7 witness: a concrete well-formed line round-trips exactly. -/
theorem C7_roundtrip_normalized_witness :
    parse_targets_artifact (render_targets_artifact
        [['h', 't', 't', 'p', ':', '/', '/', 'a', ',', ' ', 'b']])
      = Except.ok [['h', 't', 't', 'p', ':', '/', '/', 'a', ',', ' ', 'b']] :=
  C7_roundtrip_normalized _ (by decide)

/-- C2: the claim that any line failing the spec's shape makes the writer
raise is refuted: this line has a path segment in the host position, so it
fails the spec's `scheme://host[:port], label` shape, yet it matches the
source regex (whose host class is merely `[^,\s]+`) and the writer
succeeds. -/
theorem C2_counterexample :
    claimedLineShape ['h', 't', 't', 'p', ':', '/', '/', 'a', '/', 'b', ',', ' ', 'x'] = false ∧
    write_targets_artifact 7 [['h', 't', 't', 'p', ':', '/', '/', 'a', '/', 'b', ',', ' ', 'x']]
      = Except.ok (7, render_targets_artifact
          [['h', 't', 't', 'p', ':', '/', '/', 'a', '/', 'b', ',', ' ', 'x']]) := by
  decide

/-- C2 (corrected): the writer re-parses the rendered text and writes exactly
when that self-check passes, but the check is the source regex on the split,
stripped, non-empty lines, not the spec's shape: over break-free lines, if
every line strips to empty or matches `TARGET_LINE_RE` the write succeeds
with the rendered content, and if some line strips to a non-empty non-match
the writer raises `invalid line` before any write. -/
theorem C2_selfcheck_regex (pt : Nat) (lines : List Str)
    (hbf : ∀ l ∈ lines, l.all (fun c => !isLineBreak c) = true) :
    ((∀ l ∈ lines, pyStrip l = [] ∨ matchTargetLine (pyStrip l) = true) →
      write_targets_artifact pt lines
        = Except.ok (pt, render_targets_artifact lines)) ∧
    ((∃ l ∈ lines, pyStrip l ≠ [] ∧ matchTargetLine (pyStrip l) = false) →
      ∃ bad, write_targets_artifact pt lines
        = Except.error (ArtifactError.invalidLine bad) ∧ matchTargetLine bad = false) := by
  have hp := parse_render lines hbf
  constructor
  · intro hall
    have hnone : checkLinesLoop ((lines.map pyStrip).filter (fun l => l ≠ [])) = none := by
      apply checkLinesLoop_none
      intro l hl
      rcases List.mem_filter.mp hl with ⟨hm, hne⟩
      rcases List.mem_map.mp hm with ⟨a, ha, rfl⟩
      rcases hall a ha with h0 | h1
      · exact absurd h0 (of_decide_eq_true hne)
      · exact h1
    rw [show write_targets_artifact pt lines
        = (match parse_targets_artifact (render_targets_artifact lines) with
           | Except.error e => Except.error e
           | Except.ok _ => Except.ok (pt, render_targets_artifact lines)) from rfl]
    rw [hp, hnone]
  · rintro ⟨l, hl, hne, hbad⟩
    have hmem : pyStrip l ∈ (lines.map pyStrip).filter (fun l => l ≠ []) :=
      List.mem_filter.mpr ⟨List.mem_map.mpr ⟨l, hl, rfl⟩, decide_eq_true hne⟩
    obtain ⟨bad, hcl, hbm⟩ := checkLinesLoop_finds _ ⟨pyStrip l, hmem, hbad⟩
    refine ⟨bad, ?_, hbm⟩
    rw [show write_targets_artifact pt lines
        = (match parse_targets_artifact (render_targets_artifact lines) with
           | Except.error e => Except.error e
           | Except.ok _ => Except.ok (pt, render_targets_artifact lines)) from rfl]
    rw [hp, hcl]

/-- C2 witness: a concrete regex-matching line is written with its rendered
content, and a concrete non-matching line makes the writer raise before any
write. -/
theorem C2_selfcheck_regex_witness :
    write_targets_artifact 1 [['h', 't', 't', 'p', ':', '/', '/', 'a', ',', ' ', 'b']]
      = Except.ok (1, render_targets_artifact
          [['h', 't', 't', 'p', ':', '/', '/', 'a', ',', ' ', 'b']]) ∧
    ∃ bad, write_targets_artifact 1 [['a']]
      = Except.error (ArtifactError.invalidLine bad) ∧ matchTargetLine bad = false :=
  ⟨(C2_selfcheck_regex 1 [['h', 't', 't', 'p', ':', '/', '/', 'a', ',', ' ', 'b']]
      (by decide)).1 (by decide),
   (C2_selfcheck_regex 1 [['a']] (by decide)).2 (by decide)⟩

end NewBot
